import Mathlib

/-!
# Component name randomization (kubevela, `component_updater.go`)

A shallow embedding of
`pkg/controller/core.oam.dev/v1alpha2/application/component_updater.go`.

Modelling choices.

* Go strings are Lean `String`s (component and application names are valid
  UTF-8 text); Go's `len` is the UTF-8 byte count, `goLen`.
* `*v1beta1.Application` is a pointer: `Ptr := Option Addr` with `none` for
  `nil`, and the objects live in a `Heap`.  A function that dereferences a nil
  pointer panics; a panic is the result `none`.
* `map[string]string` is an association list read with `mapGet?` and written
  with `mapSet` (one entry per key); a nil map is `none`.
* The three package-level flags are the fields of `Flags`, passed explicitly.
* `rand.Seed(time.Now().UnixNano()); rand.Read(b)` is an oracle `Nat → Nat`
  giving the raw value of every byte read; the pass takes one oracle per
  component index.
* Logging (`klog.InfoS`) is modelled only through the pointers it dereferences.
* Every `Application` object owns its component list: two objects at different
  addresses do not share the array behind `Spec.Components`.
* `json.Marshal`, `json.Unmarshal` and `metav1.SetMetaDataAnnotation` are library
  functions; they are modelled from their documented behaviour on
  `map[string]string` and `ObjectMeta`.
-/

namespace KubeVela

/-! ## Go values -/

/-- Go `map[string]string` (non-nil), as an association list with one entry per key. -/
abbrev GoMap := List (String × String)

/-- Go `v, ok := m[k]`. -/
def mapGet? (m : GoMap) (k : String) : Option String :=
  match m with
  | [] => none
  | (k1, v1) :: rest => if k = k1 then some v1 else mapGet? rest k

/-- A map without the entry of `k`. -/
def mapErase (m : GoMap) (k : String) : GoMap :=
  match m with
  | [] => []
  | (k1, v1) :: rest => if k1 = k then mapErase rest k else (k1, v1) :: mapErase rest k

/-- Go `m[k] = v`: the entry of `k` is replaced, every other entry is kept. -/
def mapSet (m : GoMap) (k v : String) : GoMap :=
  (k, v) :: mapErase m k

/-- The keys of a Go map. -/
def mapKeys (m : GoMap) : List String := m.map Prod.fst

/-- Go `len(s)` of a string: the number of bytes of its UTF-8 encoding. -/
def goLen (s : String) : Nat := s.utf8ByteSize

/-- Type `common.ApplicationComponent`: the fields this file reads or writes. -/
structure ApplicationComponent where
  Name : String
  Type_ : String
deriving DecidableEq, Repr

/-- Type `v1beta1.Application`: `ObjectMeta.Name`, `ObjectMeta.Annotations`
(a Go map, possibly nil) and `Spec.Components`. -/
structure Application where
  Name : String
  Annotations : Option GoMap
  Components : List ApplicationComponent
deriving DecidableEq, Repr

/-- An address of an `Application` object. -/
abbrev Addr := Nat

/-- A `*v1beta1.Application`; `none` is `nil`. -/
abbrev Ptr := Option Addr

/-- The objects pointers refer to. -/
abbrev Heap := Addr → Option Application

/-- Dereference a pointer; `none` is the nil-pointer panic. -/
def load (σ : Heap) (p : Ptr) : Option Application :=
  match p with
  | none => none
  | some a => σ a

/-- Write an object through a pointer. -/
def store (σ : Heap) (a : Addr) (v : Application) : Heap :=
  fun b => if b = a then some v else σ b

/-- Type `AppHandler`: the field `app`. -/
structure AppHandler where
  app : Ptr
deriving DecidableEq, Repr

/-- The package-level flags (`var (...)`). -/
structure Flags where
  EnableComponentNameRandomization : Bool
  ComponentNameRandomizationAddingApplicationName : Bool
  ComponentNameRandomizationAddingSuffix : Bool
deriving DecidableEq, Repr

/-- The values the flags are initialised with. -/
def initialFlags : Flags :=
  { EnableComponentNameRandomization := true
    ComponentNameRandomizationAddingApplicationName := true
    ComponentNameRandomizationAddingSuffix := false }

/-- Constant `AnnotationComponentMapping`. -/
def AnnotationComponentMapping : String := "app.oam.dev/component-mapping"

/-- Constant `randomSuffixLength`. -/
def randomSuffixLength : Nat := 6

/-- The triple `(*v1beta1.Application, bool, error)` returned by `RandomizeComponentNames`. -/
structure Result where
  app : Ptr
  wasModified : Bool
  err : Option String
deriving DecidableEq, Repr

/-! ## Library functions used by the file -/

/-- One lowercase hexadecimal digit, for `n < 16`. -/
def hexDigit (n : Nat) : Char :=
  if n < 10 then Char.ofNat (48 + n) else Char.ofNat (87 + n)

/-- The verb `%x` on one byte: two lowercase hexadecimal digits. -/
def hexByte (b : Nat) : List Char :=
  [hexDigit (b % 256 / 16), hexDigit (b % 256 % 16)]

/-- The verb `%x` on a byte slice. -/
def hexEncode : List Nat → List Char
  | [] => []
  | b :: bs => hexByte b ++ hexEncode bs

/-- Function `rand.Read(b)` on a buffer of `n` bytes: byte `i` is `src i`, as a byte. -/
def randRead (src : Nat → Nat) (n : Nat) : List Nat :=
  (List.range n).map (fun i => src i % 256)

/-- Lexicographic order on code points: Go's `<` on (valid UTF-8) strings. -/
def charsLt : List Char → List Char → Bool
  | [], [] => false
  | [], _ :: _ => true
  | _ :: _, [] => false
  | a :: as, b :: bs =>
    if a.toNat < b.toNat then true
    else if b.toNat < a.toNat then false
    else charsLt as bs

/-- Insert an entry into a list of entries sorted by key. -/
def insertEntry (e : String × String) : List (String × String) → List (String × String)
  | [] => [e]
  | x :: xs => if charsLt x.1.data e.1.data then x :: insertEntry e xs else e :: x :: xs

/-- The entries of a map sorted by key, as `encoding/json` emits them. -/
def sortEntries : List (String × String) → List (String × String)
  | [] => []
  | e :: es => insertEntry e (sortEntries es)

/-- How `encoding/json` writes one character inside a string literal
(`json.Marshal` escapes HTML characters): `"` and `\` get a backslash,
line feed, carriage return and tab their short forms, other control characters
and `<`, `>`, `&` the form `\u00xx`, U+2028 and U+2029 the form `\u202x`. -/
def jsonEscapeChar (c : Char) : List Char :=
  if c.toNat = 34 then [Char.ofNat 92, Char.ofNat 34]
  else if c.toNat = 92 then [Char.ofNat 92, Char.ofNat 92]
  else if c.toNat = 10 then [Char.ofNat 92, 'n']
  else if c.toNat = 13 then [Char.ofNat 92, 'r']
  else if c.toNat = 9 then [Char.ofNat 92, 't']
  else if c.toNat < 32 ∨ c.toNat = 60 ∨ c.toNat = 62 ∨ c.toNat = 38 then
    [Char.ofNat 92, 'u', '0', '0', hexDigit (c.toNat / 16), hexDigit (c.toNat % 16)]
  else if c.toNat = 8232 ∨ c.toNat = 8233 then
    [Char.ofNat 92, 'u', '2', '0', '2', hexDigit (c.toNat % 16)]
  else [c]

/-- A JSON string literal. -/
def jsonString (s : String) : List Char :=
  [Char.ofNat 34] ++ (s.data.map jsonEscapeChar).flatten ++ [Char.ofNat 34]

/-- The members of a JSON object, comma separated. -/
def jsonMembers : List (String × String) → List Char
  | [] => []
  | [e] => jsonString e.1 ++ [':'] ++ jsonString e.2
  | e :: f :: rest => jsonString e.1 ++ [':'] ++ jsonString e.2 ++ [','] ++ jsonMembers (f :: rest)

/-- The JSON object `encoding/json` writes for a non-nil `map[string]string`: the
members sorted by key, between braces. -/
def encodeMapping (m : GoMap) : String :=
  String.mk ([Char.ofNat 123] ++ jsonMembers (sortEntries m) ++ [Char.ofNat 125])

/-- Function `json.Marshal` on a non-nil `map[string]string`.  It has no failing
case for this type, so the error is always nil (`Except.ok`). -/
def jsonMarshal (m : GoMap) : Except String String :=
  Except.ok (encodeMapping m)

/-- Method `GetAnnotations` of `ObjectMeta`. -/
def GetAnnotations (a : Application) : Option GoMap := a.Annotations

/-- Go `v, ok := m[k]` on a map that may be nil: a nil map has no entry. -/
def annotationGet? (ann : Option GoMap) (k : String) : Option String :=
  match ann with
  | none => none
  | some m => mapGet? m k

/-- Function `metav1.SetMetaDataAnnotation`: creates the map when it is nil, then
sets the entry. -/
def SetMetaDataAnnotation (a : Application) (ann value : String) : Application :=
  match a.Annotations with
  | none => { a with Annotations := some (mapSet [] ann value) }
  | some m => { a with Annotations := some (mapSet m ann value) }

/-! ## The functions of `component_updater.go` -/

/-- Method `AddAppNameToComponent`: `fmt.Sprintf("%s-%s", h.app.Name, componentName)`. -/
def AddAppNameToComponent (h : AppHandler) (componentName : String) (σ : Heap) :
    Option String :=
  match load σ h.app with
  | none => none
  | some happ => some (happ.Name ++ "-" ++ componentName)

/-- Method `AddRandomSuffixToComponent`: reads `randomSuffixLength` random bytes and
returns `fmt.Sprintf("%s-%x", componentName, b[:randomSuffixLength])`. -/
def AddRandomSuffixToComponent (componentName : String) (src : Nat → Nat) : String :=
  let b := randRead src randomSuffixLength
  componentName ++ "-" ++ String.mk (hexEncode (b.take randomSuffixLength))

/-- Method `GenerateRandomizedComponentName`. -/
def GenerateRandomizedComponentName (cfg : Flags) (h : AppHandler) (componentName : String)
    (src : Nat → Nat) (σ : Heap) : Option String :=
  if cfg.ComponentNameRandomizationAddingApplicationName then
    AddAppNameToComponent h componentName σ
  else if cfg.ComponentNameRandomizationAddingSuffix then
    some (AddRandomSuffixToComponent componentName src)
  else
    some componentName

/-- Method `SetComponentMappingAnnotation`: the log line reads `app.Name`, the
mapping is marshalled, and the annotation is set on `h.app`. -/
def SetComponentMappingAnnotation (h : AppHandler) (app : Ptr) (mapping : GoMap) (σ : Heap) :
    Option (Option String × Heap) :=
  match load σ app with
  | none => none
  | some _ =>
    match jsonMarshal mapping with
    | Except.error e => some (some e, σ)
    | Except.ok encoded =>
      match h.app with
      | none => none
      | some ha =>
        match σ ha with
        | none => none
        | some happ =>
          some (none, store σ ha ( SetMetaDataAnnotation happ AnnotationComponentMapping encoded))

/-- The assignment `app.Spec.Components[componentIndex].Name = newName`. -/
def setComponentName (a : Application) (componentIndex : Nat) (newName : String) :
    Application :=
  { a with Components :=
      a.Components.modify (fun c => { c with Name := newName }) componentIndex }

/-- The loop `for componentIndex, v := range app.Spec.Components` of
`RandomizeComponentNames`, with `k` iterations left, at index `componentIndex`. -/
def renameLoop (cfg : Flags) (rnd : Nat → Nat → Nat) (h : AppHandler) (app : Addr) :
    Nat → Nat → GoMap → Heap → Option (GoMap × Heap)
  | 0, _, componentMapping, σ => some (componentMapping, σ)
  | k + 1, componentIndex, componentMapping, σ =>
    match σ app with
    | none => none
    | some a =>
      match a.Components[componentIndex]? with
      | none => none
      | some v =>
        match GenerateRandomizedComponentName cfg h v.Name (rnd componentIndex) σ with
        | none => none
        | some newName =>
          renameLoop cfg rnd h app k (componentIndex + 1)
            (mapSet componentMapping v.Name newName)
            (store σ app (setComponentName a componentIndex newName))

/-- Method `RandomizeComponentNames`. -/
def RandomizeComponentNames (cfg : Flags) (rnd : Nat → Nat → Nat) (h : AppHandler)
    (app : Ptr) (σ : Heap) : Option (Result × Heap) :=
  match app with
  | none => none
  | some pa =>
    match σ pa with
    | none => none
    | some a =>
      match annotationGet? (GetAnnotations a) AnnotationComponentMapping with
      | some _ => some ({ app := none, wasModified := false, err := none }, σ)
      | none =>
        match load σ h.app with
        | none => none
        | some _ =>
          match renameLoop cfg rnd h pa a.Components.length 0 [] σ with
          | none => none
          | some (componentMapping, σ1) =>
            match SetComponentMappingAnnotation h app componentMapping σ1 with
            | none => none
            | some (some e, σ2) => some ({ app := none, wasModified := false, err := some e }, σ2)
            | some (none, σ2) => some ({ app := app, wasModified := true, err := none }, σ2)

/-! ## Vocabulary of the statements -/

/-- Go `strings.HasPrefix(s, p)`. -/
def startsWith (s p : String) : Bool := p.data.isPrefixOf s.data

/-- Go `strings.HasSuffix(s, p)`. -/
def endsWith (s p : String) : Bool := p.data.isSuffixOf s.data

/-- The character class `[0-9a-f]`. -/
def isLowerHexDigit (c : Char) : Bool :=
  (48 ≤ c.toNat && c.toNat ≤ 57) || (97 ≤ c.toNat && c.toNat ≤ 102)

/-- The name `GenerateRandomizedComponentName` yields when the handler's application
is named `hname`. -/
def generatedName (cfg : Flags) (hname componentName : String) (src : Nat → Nat) : String :=
  if cfg.ComponentNameRandomizationAddingApplicationName then hname ++ "-" ++ componentName
  else if cfg.ComponentNameRandomizationAddingSuffix then
    AddRandomSuffixToComponent componentName src
  else componentName

/-- The component list after the loop: the component at index `i + j` gets the name
generated from its own name with the oracle of its index. -/
def renamedComponents (cfg : Flags) (rnd : Nat → Nat → Nat) (hname : String) :
    Nat → List ApplicationComponent → List ApplicationComponent
  | _, [] => []
  | i, c :: cs =>
    { c with Name := generatedName cfg hname c.Name (rnd i) } ::
      renamedComponents cfg rnd hname (i + 1) cs

/-- The mapping after the loop, started from the mapping `m` at index `i`. -/
def recordedMapping (cfg : Flags) (rnd : Nat → Nat → Nat) (hname : String) :
    Nat → GoMap → List ApplicationComponent → GoMap
  | _, m, [] => m
  | i, m, c :: cs =>
    recordedMapping cfg rnd hname (i + 1)
      (mapSet m c.Name (generatedName cfg hname c.Name (rnd i))) cs

/-! ## The test fixture of `component_updater_test.go` -/

/-- The application `test-app` of the test file. -/
def testApp : Application :=
  { Name := "test-app"
    Annotations := none
    Components := [{ Name := "component1", Type_ := "test" },
                   { Name := "component2", Type_ := "test" }] }

/-- A heap holding `testApp` at address 0. -/
def testHeap : Heap := fun a => if a = 0 then some testApp else none

/-- The handler of the test file: `&AppHandler{app: app}`. -/
def testHandler : AppHandler := { app := some 0 }

/-- The application `test-app` carrying the marker key with the empty string as value. -/
def markedApp : Application :=
  { testApp with Annotations := some [(AnnotationComponentMapping, "")] }

/-- A heap holding `markedApp` at address 0. -/
def markedHeap : Heap := fun a => if a = 0 then some markedApp else none

/-- A second application, with no component and no annotation. -/
def otherApp : Application :=
  { Name := "other-app", Annotations := none, Components := [] }

/-- A heap holding `testApp` at address 0 and `otherApp` at address 1. -/
def twoHeap : Heap :=
  fun a => if a = 0 then some testApp else if a = 1 then some otherApp else none

/-- A handler whose application is `otherApp`. -/
def otherHandler : AppHandler := { app := some 1 }

/-- Flags selecting the random suffix strategy. -/
def suffixFlags : Flags :=
  { EnableComponentNameRandomization := true
    ComponentNameRandomizationAddingApplicationName := false
    ComponentNameRandomizationAddingSuffix := true }

/-! ## Reading the marker back -/

/-- The value of a hexadecimal digit. -/
def hexValue (c : Char) : Option Nat :=
  if 48 ≤ c.toNat ∧ c.toNat ≤ 57 then some (c.toNat - 48)
  else if 97 ≤ c.toNat ∧ c.toNat ≤ 102 then some (c.toNat - 87)
  else if 65 ≤ c.toNat ∧ c.toNat ≤ 70 then some (c.toNat - 55)
  else none

/-- The character a one-letter JSON escape stands for. -/
def unescapeChar (e : Char) : Option Char :=
  if e.toNat = 34 then some (Char.ofNat 34)
  else if e.toNat = 92 then some (Char.ofNat 92)
  else if e.toNat = 47 then some (Char.ofNat 47)
  else if e = 'b' then some (Char.ofNat 8)
  else if e = 'f' then some (Char.ofNat 12)
  else if e = 'n' then some (Char.ofNat 10)
  else if e = 'r' then some (Char.ofNat 13)
  else if e = 't' then some (Char.ofNat 9)
  else none

/-- Read a JSON string literal after its opening quote: the characters it denotes and
the input left after the closing quote. -/
def unquote : List Char → Option (List Char × List Char)
  | [] => none
  | c :: rest =>
    if c.toNat = 34 then some ([], rest)
    else if c.toNat = 92 then
      match rest with
      | [] => none
      | e :: rest1 =>
        if e = 'u' then
          match rest1 with
          | a :: b :: x :: y :: rest2 =>
            match hexValue a, hexValue b, hexValue x, hexValue y, unquote rest2 with
            | some a, some b, some x, some y, some (s, r) =>
              some (Char.ofNat (((a * 16 + b) * 16 + x) * 16 + y) :: s, r)
            | _, _, _, _, _ => none
          | _ => none
        else
          match unescapeChar e, unquote rest1 with
          | some d, some (s, r) => some (d :: s, r)
          | _, _ => none
    else
      match unquote rest with
      | some (s, r) => some (c :: s, r)
      | none => none

/-- Read the members of a JSON object up to the closing brace, at most `n` of them,
assigning each into the map `acc` in turn (a repeated key keeps its last value). -/
def decodeMembers : Nat → GoMap → List Char → Option GoMap
  | 0, _, _ => none
  | n + 1, acc, cs =>
    match cs with
    | [] => none
    | q :: rest =>
      if q.toNat = 34 then
        match unquote rest with
        | some (k, colon :: q2 :: rest1) =>
          if colon = ':' ∧ q2.toNat = 34 then
            match unquote rest1 with
            | some (v, sep :: rest2) =>
              if sep = ',' then decodeMembers n (mapSet acc (String.mk k) (String.mk v)) rest2
              else if sep.toNat = 125 ∧ rest2 = [] then
                some (mapSet acc (String.mk k) (String.mk v))
              else none
            | _ => none
          else none
        | _ => none
      else none

/-- Function `json.Unmarshal` into a `map[string]string`, on the compact form that
`json.Marshal` writes (no white space); `none` is a decoding error. -/
def decodeMapping (s : String) : Option GoMap :=
  match s.data with
  | o :: c :: rest =>
    if o.toNat = 123 then
      if c.toNat = 125 ∧ rest = [] then some []
      else decodeMembers (c :: rest).length [] (c :: rest)
    else none
  | _ => none

/-- Assign the entries of a list into a map, in order. -/
def mapSetAll : GoMap → List (String × String) → GoMap
  | acc, [] => acc
  | acc, e :: es => mapSetAll (mapSet acc e.1 e.2) es


/-! ## Further fixtures -/

/-- A handler without application: `&AppHandler{}`. -/
def nilHandler : AppHandler := { app := none }

/-- Flags with the main switch off and the application-name strategy on. -/
def disabledFlags : Flags :=
  { EnableComponentNameRandomization := false
    ComponentNameRandomizationAddingApplicationName := true
    ComponentNameRandomizationAddingSuffix := false }

/-- Flags with both strategies off. -/
def fallbackFlags : Flags :=
  { EnableComponentNameRandomization := true
    ComponentNameRandomizationAddingApplicationName := false
    ComponentNameRandomizationAddingSuffix := false }

/-- The test application with the annotation `team` and the marker key holding `old`. -/
def annotatedApp : Application :=
  { testApp with Annotations := some [("team", "a"), (AnnotationComponentMapping, "old")] }

/-- A heap holding `annotatedApp` at address 0. -/
def annotatedHeap : Heap := fun a => if a = 0 then some annotatedApp else none

/-! ## Basic facts -/

theorem mapGet?_mapErase (m : GoMap) (k k1 : String) :
    mapGet? (mapErase m k) k1 = if k1 = k then none else mapGet? m k1 := by
  induction m with
  | nil => simp [mapErase, mapGet?]
  | cons e es ih =>
    obtain ⟨a, b⟩ := e
    by_cases ha : a = k
    · subst ha
      simp only [mapErase, mapGet?, if_true, ih]
      by_cases h1 : k1 = a <;> simp [h1]
    · simp only [mapErase, mapGet?, ha, if_false, ih]
      by_cases h1 : k1 = a
      · subst h1; simp [ha]
      · simp [h1]

theorem mapGet?_mapSet (m : GoMap) (k v k1 : String) :
    mapGet? (mapSet m k v) k1 = if k1 = k then some v else mapGet? m k1 := by
  unfold mapSet
  by_cases hk : k1 = k
  · simp [mapGet?, hk]
  · simp [mapGet?, hk, mapGet?_mapErase]

theorem store_same (σ : Heap) (a : Addr) (v : Application) : store σ a v a = some v := by
  simp [store]

theorem store_other (σ : Heap) (a b : Addr) (v : Application) (h : b ≠ a) :
    store σ a v b = σ b := by
  simp [store, h]

theorem store_store (σ : Heap) (a : Addr) (v w : Application) :
    store (store σ a v) a w = store σ a w := by
  funext b
  by_cases h : b = a <;> simp [store, h]

theorem store_self (σ : Heap) (a : Addr) (v : Application) (h : σ a = some v) :
    store σ a v = σ := by
  funext b
  by_cases hb : b = a
  · subst hb; simp [store, h]
  · simp [store, hb]

theorem utf8ByteSize_go_append (l r : List Char) :
    String.utf8ByteSize.go (l ++ r) = String.utf8ByteSize.go l + String.utf8ByteSize.go r := by
  induction l with
  | nil => simp [String.utf8ByteSize.go]
  | cons c cs ih => simp [String.utf8ByteSize.go, ih]; omega

theorem goLen_append (s t : String) : goLen (s ++ t) = goLen s + goLen t := by
  obtain ⟨l⟩ := s
  obtain ⟨r⟩ := t
  show String.utf8ByteSize.go (l ++ r) = _
  exact utf8ByteSize_go_append l r

theorem hexDigit_utf8Size : ∀ n, n < 16 → (hexDigit n).utf8Size = 1 := by decide

theorem hexDigit_isLowerHexDigit : ∀ n, n < 16 → isLowerHexDigit (hexDigit n) = true := by decide

theorem goLen_dash : goLen "-" = 1 := by decide

theorem startsWith_append (s t : String) : startsWith (s ++ t) s = true := by
  simp [startsWith, String.data_append]

theorem endsWith_append (s t : String) : endsWith (s ++ t) t = true := by
  simp [endsWith, String.data_append]

theorem randRead_length (src : Nat → Nat) (n : Nat) : (randRead src n).length = n := by
  simp [randRead]

theorem randRead_lt (src : Nat → Nat) (n : Nat) : ∀ x ∈ randRead src n, x < 256 := by
  intro x hx
  simp only [randRead, List.mem_map] at hx
  obtain ⟨i, _, rfl⟩ := hx
  exact Nat.mod_lt _ (by decide)

theorem hexEncode_length (bs : List Nat) : (hexEncode bs).length = 2 * bs.length := by
  induction bs with
  | nil => rfl
  | cons b bs ih => simp [hexEncode, hexByte, ih]; omega

theorem hexEncode_isLowerHexDigit (bs : List Nat) :
    ∀ ch ∈ hexEncode bs, isLowerHexDigit ch = true := by
  induction bs with
  | nil => intro ch hch; simp [hexEncode] at hch
  | cons b bs ih =>
    intro ch hch
    simp only [hexEncode, hexByte, List.cons_append, List.nil_append, List.mem_cons] at hch
    rcases hch with h | h | h
    · rw [h]
      exact hexDigit_isLowerHexDigit _ (Nat.div_lt_of_lt_mul (Nat.mod_lt _ (by decide)))
    · rw [h]
      exact hexDigit_isLowerHexDigit _ (Nat.mod_lt _ (by decide))
    · exact ih ch h

theorem hexEncode_utf8 (bs : List Nat) :
    String.utf8ByteSize.go (hexEncode bs) = 2 * bs.length := by
  induction bs with
  | nil => rfl
  | cons b bs ih =>
    have h1 := hexDigit_utf8Size (b % 256 / 16)
      (Nat.div_lt_of_lt_mul (Nat.mod_lt _ (by decide)))
    have h2 := hexDigit_utf8Size (b % 256 % 16) (Nat.mod_lt _ (by decide))
    show String.utf8ByteSize.go (hexEncode bs) + (hexDigit (b % 256 % 16)).utf8Size +
      (hexDigit (b % 256 / 16)).utf8Size = 2 * (bs.length + 1)
    rw [ih, h1, h2]
    omega

theorem randRead_surjective (b : List Nat) (hb : ∀ x ∈ b, x < 256) :
    ∃ src : Nat → Nat, randRead src b.length = b := by
  refine ⟨fun i => b.getD i 0, ?_⟩
  apply List.ext_getElem
  · simp [randRead]
  · intro i h1 h2
    simp only [randRead, List.getElem_map, List.getElem_range]
    have hi : b.getD i 0 = b[i] := by
      simp [List.getD_eq_getElem?_getD, List.getElem?_eq_getElem h2]
    rw [hi]
    exact Nat.mod_eq_of_lt (hb _ (List.getElem_mem h2))

theorem AddRandomSuffixToComponent_eq (c : String) (src : Nat → Nat) :
    AddRandomSuffixToComponent c src =
      c ++ "-" ++ String.mk (hexEncode (randRead src randomSuffixLength)) := by
  unfold AddRandomSuffixToComponent
  have h : (randRead src randomSuffixLength).take randomSuffixLength =
      randRead src randomSuffixLength :=
    List.take_of_length_le (by rw [randRead_length])
  simp only [h]

/-- C6. For every handler whose application (named `n`) is not nil and every component
name `c`, `AddAppNameToComponent(c)` returns `n + "-" + c`; the result starts with `n`,
ends with `c`, and its length is `len(n) + len(c) + 1`. -/
theorem AddAppNameToComponent_spec (h : AppHandler) (σ : Heap) (happ : Application)
    (c : String) (hh : load σ h.app = some happ) :
    ∃ r, AddAppNameToComponent h c σ = some r ∧
      r = happ.Name ++ "-" ++ c ∧
      startsWith r happ.Name = true ∧
      endsWith r c = true ∧
      goLen r = goLen happ.Name + goLen c + 1 := by
  refine ⟨happ.Name ++ "-" ++ c, ?_, rfl, ?_, ?_, ?_⟩
  · simp [AddAppNameToComponent, hh]
  · rw [String.append_assoc]; exact startsWith_append _ _
  · exact endsWith_append _ _
  · rw [goLen_append, goLen_append, goLen_dash]; omega

/-- C6, on the test fixture: `test-app` and `component1` give `test-app-component1`. -/
theorem AddAppNameToComponent_spec_witness :
    load testHeap testHandler.app = some testApp ∧
    ∃ r, AddAppNameToComponent testHandler "component1" testHeap = some r ∧
      r = testApp.Name ++ "-" ++ "component1" ∧
      startsWith r testApp.Name = true ∧
      endsWith r "component1" = true ∧
      goLen r = goLen testApp.Name + goLen "component1" + 1 :=
  ⟨rfl, AddAppNameToComponent_spec testHandler testHeap testApp "component1" rfl⟩

/-- C7. For every component name `c` and every draw of `randomSuffixLength = 6` random
bytes `b`, `AddRandomSuffixToComponent(c)` is `c + "-" + hex(b)`: it starts with `c`,
has length `len(c) + 13`, and its last 12 characters are the hexadecimal form of `b`,
all in `[0-9a-f]`; every list of 6 bytes is such a draw. -/
theorem AddRandomSuffixToComponent_spec (c : String) (src : Nat → Nat) :
    (randRead src randomSuffixLength).length = 6 ∧
    (∀ x ∈ randRead src randomSuffixLength, x < 256) ∧
    AddRandomSuffixToComponent c src =
      c ++ "-" ++ String.mk (hexEncode (randRead src randomSuffixLength)) ∧
    startsWith (AddRandomSuffixToComponent c src) c = true ∧
    goLen (AddRandomSuffixToComponent c src) = goLen c + 13 ∧
    (AddRandomSuffixToComponent c src).length = c.length + 13 ∧
    (AddRandomSuffixToComponent c src).data.drop
        ((AddRandomSuffixToComponent c src).data.length - 12) =
      hexEncode (randRead src randomSuffixLength) ∧
    (hexEncode (randRead src randomSuffixLength)).length = 12 ∧
    (∀ ch ∈ hexEncode (randRead src randomSuffixLength), isLowerHexDigit ch = true) ∧
    (∀ b : List Nat, b.length = 6 → (∀ x ∈ b, x < 256) →
      ∃ src1 : Nat → Nat, randRead src1 randomSuffixLength = b ∧
        AddRandomSuffixToComponent c src1 = c ++ "-" ++ String.mk (hexEncode b)) := by
  have hlen : (hexEncode (randRead src randomSuffixLength)).length = 12 := by
    rw [hexEncode_length, randRead_length]; rfl
  refine ⟨randRead_length _ _, randRead_lt _ _, AddRandomSuffixToComponent_eq c src, ?_, ?_,
    ?_, ?_, hlen, hexEncode_isLowerHexDigit _, ?_⟩
  · rw [AddRandomSuffixToComponent_eq, String.append_assoc]; exact startsWith_append _ _
  · rw [AddRandomSuffixToComponent_eq, goLen_append, goLen_append, goLen_dash]
    have : goLen (String.mk (hexEncode (randRead src randomSuffixLength))) = 12 := by
      show String.utf8ByteSize.go _ = 12
      rw [hexEncode_utf8, randRead_length]; rfl
    omega
  · rw [AddRandomSuffixToComponent_eq, String.length_append, String.length_append]
    have : (String.mk (hexEncode (randRead src randomSuffixLength))).length = 12 := hlen
    have h1 : "-".length = 1 := by decide
    omega
  · rw [AddRandomSuffixToComponent_eq]
    simp only [String.data_append, List.length_append, hlen]
    have h1 : "-".data.length = 1 := by decide
    exact List.drop_left' (by simp)
  · intro b hb6 hb
    obtain ⟨src1, h1⟩ := randRead_surjective b hb
    rw [hb6] at h1
    have h2 : randRead src1 randomSuffixLength = b := h1
    exact ⟨src1, h2, by rw [AddRandomSuffixToComponent_eq, h2]⟩

/-- C8. With both strategy flags disabled, `GenerateRandomizedComponentName(c)` returns
`c` itself, for every handler (also one whose application is nil), every heap and every
random source; it never fails. -/
theorem GenerateRandomizedComponentName_fallback (cfg : Flags) (h : AppHandler) (c : String)
    (src : Nat → Nat) (σ : Heap)
    (h1 : cfg.ComponentNameRandomizationAddingApplicationName = false)
    (h2 : cfg.ComponentNameRandomizationAddingSuffix = false) :
    GenerateRandomizedComponentName cfg h c src σ = some c := by
  simp [GenerateRandomizedComponentName, h1, h2]

/-- C8, on a handler without application: the name `component1` is returned unchanged. -/
theorem GenerateRandomizedComponentName_fallback_witness :
    GenerateRandomizedComponentName
      { EnableComponentNameRandomization := true
        ComponentNameRandomizationAddingApplicationName := false
        ComponentNameRandomizationAddingSuffix := false }
      { app := none } "component1" (fun _ => 7) testHeap = some "component1" :=
  GenerateRandomizedComponentName_fallback _ _ _ _ _ rfl rfl

theorem AddRandomSuffixToComponent_two_draws (c : String) :
    AddRandomSuffixToComponent c (fun _ => 0) ≠ AddRandomSuffixToComponent c (fun _ => 1) := by
  intro h
  rw [AddRandomSuffixToComponent_eq, AddRandomSuffixToComponent_eq] at h
  have h2 := congrArg String.data h
  simp only [String.data_append, List.append_cancel_left_eq] at h2
  exact absurd h2 (by decide)

/-- C9. `GenerateRandomizedComponentName` follows the strict priority of the flags, for
every component name `c`: with the application-name flag enabled it is
`AddAppNameToComponent(c)`, whatever the suffix flag and the random draw are; with the
application-name flag disabled and the suffix flag enabled it is
`AddRandomSuffixToComponent(c)`; and it is `AddRandomSuffixToComponent(c)` on every
random draw exactly under that last setting of the flags. -/
theorem GenerateRandomizedComponentName_priority (cfg : Flags) (h : AppHandler) (σ : Heap)
    (c : String) :
    (cfg.ComponentNameRandomizationAddingApplicationName = true →
      ∀ src : Nat → Nat,
        GenerateRandomizedComponentName cfg h c src σ = AddAppNameToComponent h c σ) ∧
    (cfg.ComponentNameRandomizationAddingApplicationName = false →
      cfg.ComponentNameRandomizationAddingSuffix = true →
      ∀ src : Nat → Nat,
        GenerateRandomizedComponentName cfg h c src σ =
          some (AddRandomSuffixToComponent c src)) ∧
    ((∀ src : Nat → Nat,
        GenerateRandomizedComponentName cfg h c src σ =
          some (AddRandomSuffixToComponent c src)) ↔
      (cfg.ComponentNameRandomizationAddingApplicationName = false ∧
        cfg.ComponentNameRandomizationAddingSuffix = true)) := by
  refine ⟨?_, ?_, ?_, ?_⟩
  · intro h1 src
    simp [GenerateRandomizedComponentName, h1]
  · intro h1 h2 src
    simp [GenerateRandomizedComponentName, h1, h2]
  · intro hall
    have h0 := hall (fun _ => 0)
    have h1 := hall (fun _ => 1)
    cases hp : cfg.ComponentNameRandomizationAddingApplicationName
    · cases hs : cfg.ComponentNameRandomizationAddingSuffix
      · exfalso
        simp only [GenerateRandomizedComponentName, hp, hs, Bool.false_eq_true, if_false,
          Option.some.injEq] at h0 h1
        exact AddRandomSuffixToComponent_two_draws c (h0.symm.trans h1)
      · exact ⟨rfl, rfl⟩
    · exfalso
      simp only [GenerateRandomizedComponentName, hp, if_true] at h0 h1
      exact AddRandomSuffixToComponent_two_draws c (Option.some.inj (h0.symm.trans h1))
  · rintro ⟨h1, h2⟩ src
    simp [GenerateRandomizedComponentName, h1, h2]

/-- C1. When the annotations of `A` hold the key `app.oam.dev/component-mapping` (with
any value), `RandomizeComponentNames(A)` returns `wasModified = false` and a nil
error and changes nothing: the heap after the call is the heap before it, so `A` has
the same components, in the same order, and the same annotations; this holds for
every handler, every setting of the flags and every random source. -/
theorem RandomizeComponentNames_guard (cfg : Flags) (rnd : Nat → Nat → Nat) (h : AppHandler)
    (pa : Addr) (σ : Heap) (A : Application) (v : String)
    (hA : σ pa = some A)
    (hv : annotationGet? (GetAnnotations A) AnnotationComponentMapping = some v) :
    ∃ r σ1, RandomizeComponentNames cfg rnd h (some pa) σ = some (r, σ1) ∧
      r.wasModified = false ∧ r.err = none ∧ σ1 = σ ∧ σ1 pa = some A := by
  refine ⟨{ app := none, wasModified := false, err := none }, σ, ?_, rfl, rfl, rfl, hA⟩
  simp [RandomizeComponentNames, hA, hv]

/-- C10. When the annotations of `A` hold the marker key, `RandomizeComponentNames(A)`
returns exactly `(nil, false, nil)`: the returned pointer is nil, not `A`. -/
theorem RandomizeComponentNames_already_renamed (cfg : Flags) (rnd : Nat → Nat → Nat)
    (h : AppHandler) (pa : Addr) (σ : Heap) (A : Application) (v : String)
    (hA : σ pa = some A)
    (hv : annotationGet? (GetAnnotations A) AnnotationComponentMapping = some v) :
    RandomizeComponentNames cfg rnd h (some pa) σ =
      some ({ app := none, wasModified := false, err := none }, σ) := by
  simp [RandomizeComponentNames, hA, hv]

/-! ## The loop -/

theorem modify_length_append (f : ApplicationComponent → ApplicationComponent)
    (pre : List ApplicationComponent) (c : ApplicationComponent)
    (cs : List ApplicationComponent) :
    List.modify f pre.length (pre ++ c :: cs) = pre ++ f c :: cs := by
  induction pre with
  | nil => rfl
  | cons p ps ih => simp [List.modify_succ_cons, ih]

theorem getElem?_length_append (pre : List ApplicationComponent) (c : ApplicationComponent)
    (cs : List ApplicationComponent) : (pre ++ c :: cs)[pre.length]? = some c := by
  induction pre with
  | nil => simp
  | cons p ps ih => simpa using ih

theorem load_store_name (σ : Heap) (pa : Addr) (A A1 : Application) (h : AppHandler)
    (hA : σ pa = some A) (hn : A1.Name = A.Name) :
    (load (store σ pa A1) h.app).map (fun x => x.Name) =
      (load σ h.app).map (fun x => x.Name) := by
  cases hp : h.app with
  | none => simp [load]
  | some ha =>
    by_cases hx : ha = pa
    · subst hx; simp [load, store, hA, hn]
    · simp [load, store, hx]

theorem GenerateRandomizedComponentName_eq (cfg : Flags) (h : AppHandler) (c hname : String)
    (src : Nat → Nat) (σ : Heap)
    (hh : (load σ h.app).map (fun x => x.Name) = some hname) :
    GenerateRandomizedComponentName cfg h c src σ = some (generatedName cfg hname c src) := by
  cases hl : load σ h.app with
  | none => simp [hl] at hh
  | some happ =>
    simp only [hl, Option.map_some', Option.some.injEq] at hh
    subst hh
    unfold GenerateRandomizedComponentName generatedName AddAppNameToComponent
    cases cfg.ComponentNameRandomizationAddingApplicationName <;>
      cases cfg.ComponentNameRandomizationAddingSuffix <;> simp [hl]

theorem renameLoop_eq (cfg : Flags) (rnd : Nat → Nat → Nat) (h : AppHandler) (pa : Addr)
    (hname : String) :
    ∀ (rest pre : List ApplicationComponent) (m : GoMap) (σ : Heap) (A : Application),
      σ pa = some A → A.Components = pre ++ rest →
      (load σ h.app).map (fun x => x.Name) = some hname →
      renameLoop cfg rnd h pa rest.length pre.length m σ =
        some (recordedMapping cfg rnd hname pre.length m rest,
          store σ pa { A with
            Components := pre ++ renamedComponents cfg rnd hname pre.length rest }) := by
  intro rest
  induction rest with
  | nil =>
    intro pre m σ A hA hc _
    have hEq : ({ A with Components := pre ++ renamedComponents cfg rnd hname pre.length [] } :
        Application) = A := by
      cases A
      simp only [renamedComponents, Application.mk.injEq, true_and]
      simpa using hc.symm
    rw [hEq, store_self σ pa A hA]
    rfl
  | cons c cs ih =>
    intro pre m σ A hA hc hh
    have hget : A.Components[pre.length]? = some c := by
      rw [hc]; exact getElem?_length_append pre c cs
    have hgen := GenerateRandomizedComponentName_eq cfg h c.Name hname (rnd pre.length) σ hh
    have hmod : (setComponentName A pre.length
          (generatedName cfg hname c.Name (rnd pre.length))).Components =
        (pre ++ [{ c with Name := generatedName cfg hname c.Name (rnd pre.length) }]) ++ cs := by
      simp only [setComponentName, hc, modify_length_append]
      simp
    have hstep := ih (pre ++ [{ c with Name := generatedName cfg hname c.Name (rnd pre.length) }])
      (mapSet m c.Name (generatedName cfg hname c.Name (rnd pre.length)))
      (store σ pa (setComponentName A pre.length
        (generatedName cfg hname c.Name (rnd pre.length))))
      (setComponentName A pre.length (generatedName cfg hname c.Name (rnd pre.length)))
      (store_same _ _ _) hmod
      ((load_store_name σ pa A (setComponentName A pre.length
        (generatedName cfg hname c.Name (rnd pre.length))) h hA rfl).trans hh)
    simp only [List.length_append, List.length_singleton, store_store] at hstep
    simp only [List.length_cons, renameLoop, hA, hget, hgen, hstep, recordedMapping,
      renamedComponents]
    simp [setComponentName]

/-! ## One pass -/

theorem RandomizeComponentNames_wrapping (cfg : Flags) (rnd : Nat → Nat → Nat)
    (h : AppHandler) (pa : Addr) (σ : Heap) (A : Application)
    (hA : σ pa = some A)
    (hv : annotationGet? (GetAnnotations A) AnnotationComponentMapping = none)
    (hw : h.app = some pa) :
    RandomizeComponentNames cfg rnd h (some pa) σ =
      some ({ app := some pa, wasModified := true, err := none },
        store σ pa ( SetMetaDataAnnotation
          { A with Components := renamedComponents cfg rnd A.Name 0 A.Components }
          AnnotationComponentMapping
          (encodeMapping (recordedMapping cfg rnd A.Name 0 [] A.Components)))) := by
  have hl : load σ h.app = some A := by rw [hw]; exact hA
  have hloop := renameLoop_eq cfg rnd h pa A.Name A.Components [] [] σ A hA rfl
    (by rw [hl]; rfl)
  simp only [List.length_nil, List.nil_append] at hloop
  simp only [RandomizeComponentNames, hA, hv, hl, hloop, SetComponentMappingAnnotation, load,
    store_same, jsonMarshal, hw, store_store]

theorem RandomizeComponentNames_other (cfg : Flags) (rnd : Nat → Nat → Nat)
    (h : AppHandler) (pa ha : Addr) (σ : Heap) (A H : Application)
    (hA : σ pa = some A)
    (hv : annotationGet? (GetAnnotations A) AnnotationComponentMapping = none)
    (hw : h.app = some ha) (hne : ha ≠ pa) (hH : σ ha = some H) :
    RandomizeComponentNames cfg rnd h (some pa) σ =
      some ({ app := some pa, wasModified := true, err := none },
        store
          (store σ pa { A with Components := renamedComponents cfg rnd H.Name 0 A.Components })
          ha ( SetMetaDataAnnotation H AnnotationComponentMapping
            (encodeMapping (recordedMapping cfg rnd H.Name 0 [] A.Components)))) := by
  have hl : load σ h.app = some H := by rw [hw]; exact hH
  have hloop := renameLoop_eq cfg rnd h pa H.Name A.Components [] [] σ A hA rfl
    (by rw [hl]; rfl)
  simp only [List.length_nil, List.nil_append] at hloop
  simp only [RandomizeComponentNames, hA, hv, hl, hloop, SetComponentMappingAnnotation, load,
    store_same, jsonMarshal, hw, store_other _ _ _ _ hne, hH]

theorem annotationGet?_SetMetaDataAnnotation (a : Application) (k v k1 : String) :
    annotationGet? ( SetMetaDataAnnotation a k v).Annotations k1 =
      if k1 = k then some v else annotationGet? a.Annotations k1 := by
  unfold SetMetaDataAnnotation
  cases ha : a.Annotations with
  | none => simp [annotationGet?, mapGet?_mapSet, mapGet?]
  | some m => simp [annotationGet?, mapGet?_mapSet]

theorem SetMetaDataAnnotation_Components (a : Application) (k v : String) :
    ( SetMetaDataAnnotation a k v).Components = a.Components := by
  unfold SetMetaDataAnnotation
  cases a.Annotations <;> rfl

theorem SetMetaDataAnnotation_Name (a : Application) (k v : String) :
    ( SetMetaDataAnnotation a k v).Name = a.Name := by
  unfold SetMetaDataAnnotation
  cases a.Annotations <;> rfl

theorem renamedComponents_length (cfg : Flags) (rnd : Nat → Nat → Nat) (hname : String) :
    ∀ (cs : List ApplicationComponent) (i : Nat),
      (renamedComponents cfg rnd hname i cs).length = cs.length := by
  intro cs
  induction cs with
  | nil => intro i; rfl
  | cons c cs ih => intro i; simp [renamedComponents, ih]

theorem renamedComponents_getElem? (cfg : Flags) (rnd : Nat → Nat → Nat) (hname : String) :
    ∀ (cs : List ApplicationComponent) (i j : Nat),
      (renamedComponents cfg rnd hname i cs)[j]? =
        (cs[j]?).map (fun c => { c with Name := generatedName cfg hname c.Name (rnd (i + j)) }) := by
  intro cs
  induction cs with
  | nil => intro i j; simp [renamedComponents]
  | cons c cs ih =>
    intro i j
    cases j with
    | zero => simp [renamedComponents]
    | succ j =>
      simp only [renamedComponents, List.getElem?_cons_succ, ih]
      have : i + 1 + j = i + (j + 1) := by omega
      rw [this]

/-! ## The recorded mapping -/

theorem mapErase_of_not_mem (m : GoMap) (k : String) (hk : k ∉ mapKeys m) :
    mapErase m k = m := by
  induction m with
  | nil => rfl
  | cons e es ih =>
    obtain ⟨a, b⟩ := e
    simp only [mapKeys, List.map_cons, List.mem_cons, not_or] at hk
    have h1 : ¬ a = k := fun h => hk.1 h.symm
    simp only [mapErase, h1, if_false]
    rw [ih hk.2]

theorem recordedMapping_get_of_not_mem (cfg : Flags) (rnd : Nat → Nat → Nat) (hname : String) :
    ∀ (cs : List ApplicationComponent) (i : Nat) (m : GoMap) (k : String),
      k ∉ cs.map (fun c => c.Name) →
      mapGet? (recordedMapping cfg rnd hname i m cs) k = mapGet? m k := by
  intro cs
  induction cs with
  | nil => intro i m k _; rfl
  | cons c cs ih =>
    intro i m k hk
    simp only [List.map_cons, List.mem_cons, not_or] at hk
    simp only [recordedMapping]
    rw [ih (i + 1) _ k hk.2, mapGet?_mapSet, if_neg hk.1]

theorem recordedMapping_get (cfg : Flags) (rnd : Nat → Nat → Nat) (hname : String) :
    ∀ (cs : List ApplicationComponent) (i : Nat) (m : GoMap) (j : Nat)
      (c : ApplicationComponent),
      (cs.map (fun c => c.Name)).Nodup → cs[j]? = some c →
      mapGet? (recordedMapping cfg rnd hname i m cs) c.Name =
        some (generatedName cfg hname c.Name (rnd (i + j))) := by
  intro cs
  induction cs with
  | nil => intro i m j c _ hj; simp at hj
  | cons d ds ih =>
    intro i m j c hnd hj
    simp only [List.map_cons, List.nodup_cons] at hnd
    cases j with
    | zero =>
      simp only [List.getElem?_cons_zero, Option.some.injEq] at hj
      subst hj
      simp only [recordedMapping]
      rw [recordedMapping_get_of_not_mem cfg rnd hname ds (i + 1) _ d.Name hnd.1,
        mapGet?_mapSet, if_pos rfl]
      rfl
    | succ j =>
      simp only [List.getElem?_cons_succ] at hj
      simp only [recordedMapping]
      rw [ih (i + 1) _ j c hnd.2 hj]
      have : i + 1 + j = i + (j + 1) := by omega
      rw [this]

theorem recordedMapping_keys (cfg : Flags) (rnd : Nat → Nat → Nat) (hname : String) :
    ∀ (cs : List ApplicationComponent) (i : Nat) (m : GoMap),
      (cs.map (fun c => c.Name)).Nodup →
      (∀ k ∈ cs.map (fun c => c.Name), k ∉ mapKeys m) →
      mapKeys (recordedMapping cfg rnd hname i m cs) =
        (cs.map (fun c => c.Name)).reverse ++ mapKeys m := by
  intro cs
  induction cs with
  | nil => intro i m _ _; rfl
  | cons d ds ih =>
    intro i m hnd hdis
    simp only [List.map_cons, List.nodup_cons] at hnd
    have hd : d.Name ∉ mapKeys m := hdis d.Name (by simp)
    simp only [recordedMapping]
    rw [ih (i + 1) _ hnd.2]
    · simp [mapSet, mapErase_of_not_mem m d.Name hd, mapKeys]
    · intro k hk
      simp only [mapSet, mapErase_of_not_mem m d.Name hd, mapKeys, List.map_cons,
        List.mem_cons, not_or]
      refine ⟨?_, hdis k (by simp only [List.map_cons, List.mem_cons]; exact Or.inr hk)⟩
      intro hkd
      exact hnd.1 (hkd ▸ hk)

/-! ## Decoding what was encoded -/

theorem hexValue_hexDigit : ∀ n, n < 16 → hexValue (hexDigit n) = some n := by decide

theorem char_eq_of_toNat (c : Char) (n : Nat) (h : c.toNat = n) : Char.ofNat n = c := by
  rw [← h]; exact Char.ofNat_toNat c

theorem unquote_cons_plain (c : Char) (tail : List Char) (h1 : c.toNat ≠ 34)
    (h2 : c.toNat ≠ 92) :
    unquote (c :: tail) =
      match unquote tail with
      | some (s, r) => some (c :: s, r)
      | none => none := by
  rw [unquote.eq_def]
  simp only [h1, h2, if_false]

theorem unquote_short (e d : Char) (tail : List Char) (he : e ≠ 'u')
    (hd : unescapeChar e = some d) :
    unquote (Char.ofNat 92 :: e :: tail) =
      match unquote tail with
      | some (s, r) => some (d :: s, r)
      | none => none := by
  have h1 : (Char.ofNat 92).toNat ≠ 34 := by decide
  have h2 : (Char.ofNat 92).toNat = 92 := by decide
  rw [unquote.eq_def]
  simp only [h1, h2, if_false, if_true, he, hd]
  cases unquote tail with
  | none => rfl
  | some p => rfl

theorem unquote_long (a b x y : Char) (na nb nx ny : Nat) (tail : List Char)
    (ha : hexValue a = some na) (hb : hexValue b = some nb) (hx : hexValue x = some nx)
    (hy : hexValue y = some ny) :
    unquote (Char.ofNat 92 :: 'u' :: a :: b :: x :: y :: tail) =
      match unquote tail with
      | some (s, r) => some (Char.ofNat (((na * 16 + nb) * 16 + nx) * 16 + ny) :: s, r)
      | none => none := by
  have h1 : (Char.ofNat 92).toNat ≠ 34 := by decide
  have h2 : (Char.ofNat 92).toNat = 92 := by decide
  rw [unquote.eq_def]
  simp only [h1, h2, if_false, if_true, ha, hb, hx, hy]
  cases unquote tail with
  | none => rfl
  | some p => rfl

theorem unquote_jsonEscapeChar (c : Char) (tail : List Char) :
    unquote (jsonEscapeChar c ++ tail) =
      match unquote tail with
      | some (s, r) => some (c :: s, r)
      | none => none := by
  unfold jsonEscapeChar
  split_ifs with h34 h92 h10 h13 h9 hctl hsep
  · rw [List.cons_append, List.cons_append, List.nil_append,
      unquote_short (Char.ofNat 34) (Char.ofNat 34) tail (by decide) (by decide),
      char_eq_of_toNat c 34 h34]
  · rw [List.cons_append, List.cons_append, List.nil_append,
      unquote_short (Char.ofNat 92) (Char.ofNat 92) tail (by decide) (by decide),
      char_eq_of_toNat c 92 h92]
  · rw [List.cons_append, List.cons_append, List.nil_append,
      unquote_short 'n' (Char.ofNat 10) tail (by decide) (by decide),
      char_eq_of_toNat c 10 h10]
  · rw [List.cons_append, List.cons_append, List.nil_append,
      unquote_short 'r' (Char.ofNat 13) tail (by decide) (by decide),
      char_eq_of_toNat c 13 h13]
  · rw [List.cons_append, List.cons_append, List.nil_append,
      unquote_short 't' (Char.ofNat 9) tail (by decide) (by decide),
      char_eq_of_toNat c 9 h9]
  · have hlt : c.toNat / 16 < 16 := by omega
    have hv : ((0 * 16 + 0) * 16 + c.toNat / 16) * 16 + c.toNat % 16 = c.toNat := by omega
    simp only [List.cons_append, List.nil_append]
    rw [unquote_long '0' '0' _ _ 0 0 _ _ tail (by decide) (by decide)
      (hexValue_hexDigit _ hlt) (hexValue_hexDigit _ (Nat.mod_lt _ (by decide))), hv,
      Char.ofNat_toNat]
  · have hv : ((2 * 16 + 0) * 16 + 2) * 16 + c.toNat % 16 = c.toNat := by omega
    simp only [List.cons_append, List.nil_append]
    rw [unquote_long '2' '0' '2' _ 2 0 2 _ tail (by decide) (by decide) (by decide)
      (hexValue_hexDigit _ (Nat.mod_lt _ (by decide))), hv, Char.ofNat_toNat]
  · rw [List.cons_append, List.nil_append, unquote_cons_plain c tail h34 h92]

theorem unquote_escaped (s tail : List Char) :
    unquote ((s.map jsonEscapeChar).flatten ++ Char.ofNat 34 :: tail) = some (s, tail) := by
  induction s with
  | nil =>
    rw [unquote.eq_def]
    have h : (Char.ofNat 34).toNat = 34 := by decide
    simp [h]
  | cons c cs ih =>
    simp only [List.map_cons, List.flatten_cons, List.append_assoc]
    rw [unquote_jsonEscapeChar, ih]

theorem jsonString_append (s : String) (tail : List Char) :
    jsonString s ++ tail =
      Char.ofNat 34 :: ((s.data.map jsonEscapeChar).flatten ++ Char.ofNat 34 :: tail) := by
  simp [jsonString]

theorem decodeMembers_member (n : Nat) (acc : GoMap) (k v : String) (sep : Char)
    (rest2 : List Char) :
    decodeMembers (n + 1) acc (jsonString k ++ [':'] ++ jsonString v ++ sep :: rest2) =
      if sep = ',' then decodeMembers n (mapSet acc k v) rest2
      else if sep.toNat = 125 ∧ rest2 = [] then some (mapSet acc k v)
      else none := by
  have hq : (Char.ofNat 34).toNat = 34 := by decide
  have hform : jsonString k ++ [':'] ++ jsonString v ++ sep :: rest2 =
      Char.ofNat 34 :: ((k.data.map jsonEscapeChar).flatten ++ Char.ofNat 34 ::
        (':' :: Char.ofNat 34 :: ((v.data.map jsonEscapeChar).flatten ++ Char.ofNat 34 ::
          (sep :: rest2)))) := by
    simp [jsonString]
  rw [hform, decodeMembers.eq_def]
  simp only [hq, if_true, unquote_escaped, true_and]

theorem decodeMembers_jsonMembers :
    ∀ (es : List (String × String)) (e : String × String) (acc : GoMap) (n : Nat),
      es.length + 1 ≤ n →
      decodeMembers n acc (jsonMembers (e :: es) ++ [Char.ofNat 125]) =
        some (mapSetAll acc (e :: es)) := by
  intro es
  induction es with
  | nil =>
    intro e acc n hn
    obtain ⟨n, rfl⟩ : ∃ k, n = k + 1 := ⟨n - 1, by omega⟩
    simp only [jsonMembers]
    rw [decodeMembers_member]
    have h1 : ¬ Char.ofNat 125 = ',' := by decide
    have h2 : (Char.ofNat 125).toNat = 125 := by decide
    simp [h1, h2, mapSetAll]
  | cons f fs ih =>
    intro e acc n hn
    obtain ⟨n, rfl⟩ : ∃ k, n = k + 1 := ⟨n - 1, by omega⟩
    have hform : jsonMembers (e :: f :: fs) ++ [Char.ofNat 125] =
        jsonString e.1 ++ [':'] ++ jsonString e.2 ++ ',' :: (jsonMembers (f :: fs) ++
          [Char.ofNat 125]) := by
      simp [jsonMembers]
    rw [hform, decodeMembers_member, if_pos rfl, ih f _ n (by simpa using hn)]
    rfl

theorem jsonMembers_length (es : List (String × String)) :
    es.length ≤ (jsonMembers es).length := by
  induction es with
  | nil => simp
  | cons e es ih =>
    cases es with
    | nil => simp [jsonMembers, jsonString]
    | cons f fs =>
      simp only [jsonMembers, List.length_append, List.length_cons] at ih ⊢
      omega

theorem decodeMapping_encodeMapping_entries (es : List (String × String)) :
    decodeMapping (String.mk ([Char.ofNat 123] ++ jsonMembers es ++ [Char.ofNat 125])) =
      some (mapSetAll [] es) := by
  cases es with
  | nil =>
    have h1 : (Char.ofNat 123).toNat = 123 := by decide
    have h2 : (Char.ofNat 125).toNat = 125 := by decide
    simp [decodeMapping, jsonMembers, h1, h2, mapSetAll]
  | cons e es =>
    have hlen := jsonMembers_length (e :: es)
    have hdec := decodeMembers_jsonMembers es e []
      (jsonMembers (e :: es) ++ [Char.ofNat 125]).length
      (by simp only [List.length_append, List.length_cons, List.length_nil] at hlen ⊢; omega)
    obtain ⟨c, rest, hcr⟩ : ∃ c rest, jsonMembers (e :: es) ++ [Char.ofNat 125] =
        Char.ofNat 34 :: (c :: rest) := by
      have hex : ∀ (l t : List Char) (a : Char), ∃ c rest, l ++ a :: t = c :: rest := by
        intro l t a
        cases l with
        | nil => exact ⟨a, t, rfl⟩
        | cons b bs => exact ⟨b, bs ++ a :: t, rfl⟩
      cases es with
      | nil =>
        obtain ⟨c, rest, hc⟩ := hex (e.1.data.map jsonEscapeChar).flatten
          (':' :: Char.ofNat 34 :: ((e.2.data.map jsonEscapeChar).flatten ++
            [Char.ofNat 34, Char.ofNat 125])) (Char.ofNat 34)
        exact ⟨c, rest, by simp [jsonMembers, jsonString, hc]⟩
      | cons f fs =>
        obtain ⟨c, rest, hc⟩ := hex (e.1.data.map jsonEscapeChar).flatten
          (':' :: Char.ofNat 34 :: ((e.2.data.map jsonEscapeChar).flatten ++
            Char.ofNat 34 :: ',' :: (jsonMembers (f :: fs) ++ [Char.ofNat 125])))
          (Char.ofNat 34)
        exact ⟨c, rest, by simp [jsonMembers, jsonString, hc]⟩
    have h1 : (Char.ofNat 123).toNat = 123 := by decide
    have h2 : ¬ (Char.ofNat 34).toNat = 125 := by decide
    rw [hcr] at hdec
    simp only [decodeMapping, List.singleton_append, List.append_assoc, List.cons_append,
      List.nil_append, hcr, h1, if_true, h2, false_and, if_false]
    exact hdec

theorem decodeMapping_encodeMapping (m : GoMap) :
    decodeMapping (encodeMapping m) = some (mapSetAll [] (sortEntries m)) :=
  decodeMapping_encodeMapping_entries (sortEntries m)

theorem mapGet?_of_not_mem (m : GoMap) (k : String) (hk : k ∉ mapKeys m) :
    mapGet? m k = none := by
  induction m with
  | nil => rfl
  | cons e es ih =>
    obtain ⟨a, b⟩ := e
    simp only [mapKeys, List.map_cons, List.mem_cons, not_or] at hk
    simp only [mapGet?, hk.1, if_false]
    exact ih hk.2

theorem insertEntry_perm (e : String × String) (es : List (String × String)) :
    (insertEntry e es).Perm (e :: es) := by
  induction es with
  | nil => exact List.Perm.refl _
  | cons x xs ih =>
    simp only [insertEntry]
    split_ifs
    · exact (List.Perm.cons x ih).trans (List.Perm.swap e x xs)
    · exact List.Perm.refl _

theorem sortEntries_perm (m : List (String × String)) : (sortEntries m).Perm m := by
  induction m with
  | nil => exact List.Perm.refl _
  | cons e es ih => exact (insertEntry_perm e _).trans (List.Perm.cons e ih)

theorem mapKeys_sortEntries_perm (m : GoMap) : (mapKeys (sortEntries m)).Perm (mapKeys m) :=
  (sortEntries_perm m).map Prod.fst

theorem mapGet?_insertEntry (e : String × String) (es : List (String × String)) (k : String)
    (he : e.1 ∉ mapKeys es) :
    mapGet? (insertEntry e es) k = if k = e.1 then some e.2 else mapGet? es k := by
  induction es with
  | nil => simp [insertEntry, mapGet?]
  | cons x xs ih =>
    obtain ⟨a, b⟩ := x
    simp only [mapKeys, List.map_cons, List.mem_cons, not_or] at he
    simp only [insertEntry]
    by_cases h1 : charsLt a.data e.1.data = true
    · simp only [h1, if_true, mapGet?]
      rw [ih he.2]
      by_cases h2 : k = e.1
      · subst h2; simp only [he.1, if_false, if_true]
      · simp only [h2, if_false]
    · simp only [h1, if_false]
      by_cases h2 : k = e.1
      · subst h2; simp [mapGet?]
      · obtain ⟨e1, e2⟩ := e
        simp only [mapGet?, h2, if_false]

theorem mapGet?_sortEntries (m : GoMap) (k : String) (hnd : (mapKeys m).Nodup) :
    mapGet? (sortEntries m) k = mapGet? m k := by
  induction m with
  | nil => rfl
  | cons e es ih =>
    obtain ⟨a, b⟩ := e
    simp only [mapKeys, List.map_cons, List.nodup_cons] at hnd
    have hmem : (a, b).1 ∉ mapKeys (sortEntries es) := by
      intro hc
      exact hnd.1 ((mapKeys_sortEntries_perm es).mem_iff.mp hc)
    simp only [sortEntries]
    rw [mapGet?_insertEntry (a, b) _ k hmem, ih hnd.2]
    simp only [mapGet?]

theorem mapGet?_mapSetAll :
    ∀ (es : List (String × String)) (acc : GoMap) (k : String), (mapKeys es).Nodup →
      mapGet? (mapSetAll acc es) k =
        match mapGet? es k with
        | some v => some v
        | none => mapGet? acc k := by
  intro es
  induction es with
  | nil => intro acc k _; rfl
  | cons e es ih =>
    intro acc k hnd
    obtain ⟨a, b⟩ := e
    simp only [mapKeys, List.map_cons, List.nodup_cons] at hnd
    simp only [mapSetAll]
    rw [ih _ k hnd.2, mapGet?_mapSet]
    by_cases hk : k = a
    · subst hk
      rw [mapGet?_of_not_mem es k hnd.1]
      simp [mapGet?]
    · simp only [mapGet?, hk, if_false]

theorem mapKeys_mapSetAll :
    ∀ (es : List (String × String)) (acc : GoMap), (mapKeys es).Nodup →
      (∀ k ∈ mapKeys es, k ∉ mapKeys acc) →
      mapKeys (mapSetAll acc es) = (mapKeys es).reverse ++ mapKeys acc := by
  intro es
  induction es with
  | nil => intro acc _ _; rfl
  | cons e es ih =>
    intro acc hnd hdis
    obtain ⟨a, b⟩ := e
    simp only [mapKeys, List.map_cons, List.nodup_cons] at hnd
    have ha : a ∉ mapKeys acc := hdis a (by simp [mapKeys])
    simp only [mapSetAll]
    rw [ih _ hnd.2]
    · simp [mapSet, mapErase_of_not_mem acc a ha, mapKeys]
    · intro k hk
      simp only [mapSet, mapErase_of_not_mem acc a ha, mapKeys, List.map_cons, List.mem_cons,
        not_or]
      refine ⟨?_, hdis k (by simp only [mapKeys, List.map_cons, List.mem_cons]; exact Or.inr hk)⟩
      intro hka
      exact hnd.1 (hka ▸ hk)

theorem decoded_get (m : GoMap) (k : String) (hnd : (mapKeys m).Nodup) :
    mapGet? (mapSetAll [] (sortEntries m)) k = mapGet? m k := by
  have hs : (mapKeys (sortEntries m)).Nodup := (mapKeys_sortEntries_perm m).nodup_iff.mpr hnd
  rw [mapGet?_mapSetAll _ _ k hs, mapGet?_sortEntries m k hnd]
  cases mapGet? m k <;> rfl

theorem decoded_keys (m : GoMap) (hnd : (mapKeys m).Nodup) :
    (mapKeys (mapSetAll [] (sortEntries m))).Perm (mapKeys m) := by
  have hs : (mapKeys (sortEntries m)).Nodup := (mapKeys_sortEntries_perm m).nodup_iff.mpr hnd
  rw [mapKeys_mapSetAll _ [] hs (by simp [mapKeys])]
  simp only [mapKeys, List.map_nil, List.append_nil]
  exact (List.reverse_perm _).trans (mapKeys_sortEntries_perm m)

/-! ## The claims about a pass -/

/-- C1, on the test application carrying the marker with the empty string as value. -/
theorem RandomizeComponentNames_guard_witness :
    markedHeap 0 = some markedApp ∧
    annotationGet? (GetAnnotations markedApp) AnnotationComponentMapping = some "" ∧
    ∃ r σ1, RandomizeComponentNames suffixFlags (fun _ _ => 0) otherHandler (some 0) markedHeap =
        some (r, σ1) ∧
      r.wasModified = false ∧ r.err = none ∧ σ1 = markedHeap ∧ σ1 0 = some markedApp :=
  ⟨rfl, by decide,
    RandomizeComponentNames_guard suffixFlags (fun _ _ => 0) otherHandler 0 markedHeap markedApp ""
      rfl (by decide)⟩

/-- C10, on the test application carrying the marker. -/
theorem RandomizeComponentNames_already_renamed_witness :
    markedHeap 0 = some markedApp ∧
    annotationGet? (GetAnnotations markedApp) AnnotationComponentMapping = some "" ∧
    RandomizeComponentNames initialFlags (fun _ _ => 0) testHandler (some 0) markedHeap =
      some ({ app := none, wasModified := false, err := none }, markedHeap) :=
  ⟨rfl, by decide,
    RandomizeComponentNames_already_renamed initialFlags (fun _ _ => 0) testHandler 0 markedHeap
      markedApp "" rfl (by decide)⟩

/-- C2. When `A` (named `n`) lacks the marker key, the handler wraps `A` itself and the
application-name flag is enabled, `RandomizeComponentNames(A)` returns `(A, true, nil)`;
afterwards `A` has as many components as before and the component at every index `i`
is named `n + "-" +` its former name. -/
theorem RandomizeComponentNames_prefix_pass (cfg : Flags) (rnd : Nat → Nat → Nat)
    (h : AppHandler) (pa : Addr) (σ : Heap) (A : Application)
    (hA : σ pa = some A)
    (hv : annotationGet? (GetAnnotations A) AnnotationComponentMapping = none)
    (hw : h.app = some pa)
    (hp : cfg.ComponentNameRandomizationAddingApplicationName = true) :
    ∃ σ1 A1, RandomizeComponentNames cfg rnd h (some pa) σ =
        some ({ app := some pa, wasModified := true, err := none }, σ1) ∧
      σ1 pa = some A1 ∧
      A1.Components.length = A.Components.length ∧
      A1.Components.map (fun c => c.Name) =
        A.Components.map (fun c => A.Name ++ "-" ++ c.Name) ∧
      (∀ (i : Nat) (c : ApplicationComponent), A.Components[i]? = some c →
        ∃ c1, A1.Components[i]? = some c1 ∧ c1.Name = A.Name ++ "-" ++ c.Name) := by
  refine ⟨_, _, RandomizeComponentNames_wrapping cfg rnd h pa σ A hA hv hw, store_same _ _ _,
    ?_, ?_, ?_⟩
  · rw [SetMetaDataAnnotation_Components]
    exact renamedComponents_length cfg rnd A.Name A.Components 0
  · rw [SetMetaDataAnnotation_Components]
    apply List.ext_getElem?
    intro j
    simp only [List.getElem?_map, renamedComponents_getElem?, Option.map_map]
    cases A.Components[j]? <;> simp [generatedName, hp]
  · intro i c hc
    rw [SetMetaDataAnnotation_Components]
    refine ⟨{ c with Name := A.Name ++ "-" ++ c.Name }, ?_, rfl⟩
    simp [renamedComponents_getElem?, hc, generatedName, hp]

/-- C2, on the test of `component_updater_test.go`: `test-app` with the components
`component1`, `component2` gets `test-app-component1`, `test-app-component2`. -/
theorem RandomizeComponentNames_prefix_pass_witness :
    ∃ σ1 A1, RandomizeComponentNames initialFlags (fun _ _ => 0) testHandler (some 0) testHeap =
        some ({ app := some 0, wasModified := true, err := none }, σ1) ∧
      σ1 0 = some A1 ∧
      A1.Components.length = 2 ∧
      A1.Components.map (fun c => c.Name) = ["test-app-component1", "test-app-component2"] ∧
      (∀ (i : Nat) (c : ApplicationComponent), testApp.Components[i]? = some c →
        ∃ c1, A1.Components[i]? = some c1 ∧ c1.Name = "test-app" ++ "-" ++ c.Name) :=
  RandomizeComponentNames_prefix_pass initialFlags (fun _ _ => 0) testHandler 0 testHeap testApp
    rfl rfl rfl rfl

/-- C3, evaluated on a handler whose application (`other-app`, at address 1) is not the
application passed to the call (`test-app`, at address 0): the call returns
`(test-app, true, nil)`, the returned application still has no marker key, and the
marker is on `other-app`. -/
theorem RandomizeComponentNames_marker_on_handler_application :
    ∃ σ1 A1 B1,
      RandomizeComponentNames initialFlags (fun _ _ => 0) otherHandler (some 0) twoHeap =
        some ({ app := some 0, wasModified := true, err := none }, σ1) ∧
      σ1 0 = some A1 ∧
      annotationGet? (GetAnnotations A1) AnnotationComponentMapping = none ∧
      A1.Components.map (fun c => c.Name) =
        ["other-app-component1", "other-app-component2"] ∧
      σ1 1 = some B1 ∧
      annotationGet? (GetAnnotations B1) AnnotationComponentMapping =
        some ("\x7b\"component1\":\"other-app-component1\"," ++
          "\"component2\":\"other-app-component2\"\x7d") :=
  ⟨_, _, _,
    RandomizeComponentNames_other initialFlags (fun _ _ => 0) otherHandler 0 1 twoHeap testApp
      otherApp rfl rfl rfl (by decide) rfl,
    rfl, rfl, rfl, rfl, by decide⟩

/-- C4. When `A` lacks the marker key, its component names are pairwise distinct and the
handler wraps `A`, then under every setting of the flags and every random source
`RandomizeComponentNames(A)` succeeds, `A` keeps its number of components, and the value
stored under the marker key decodes to a mapping whose keys are exactly the original
component names and which sends the original name at every index to the new name at
that index; so every original name is a key and every new name is a value. -/
theorem RandomizeComponentNames_mapping_complete (cfg : Flags) (rnd : Nat → Nat → Nat)
    (h : AppHandler) (pa : Addr) (σ : Heap) (A : Application)
    (hA : σ pa = some A)
    (hv : annotationGet? (GetAnnotations A) AnnotationComponentMapping = none)
    (hw : h.app = some pa)
    (hnd : (A.Components.map (fun c => c.Name)).Nodup) :
    ∃ σ1 A1 s d, RandomizeComponentNames cfg rnd h (some pa) σ =
        some ({ app := some pa, wasModified := true, err := none }, σ1) ∧
      σ1 pa = some A1 ∧
      A1.Components.length = A.Components.length ∧
      annotationGet? (GetAnnotations A1) AnnotationComponentMapping = some s ∧
      decodeMapping s = some d ∧
      (mapKeys d).Perm (A.Components.map (fun c => c.Name)) ∧
      (∀ (i : Nat) (c : ApplicationComponent), A.Components[i]? = some c →
        ∃ c1, A1.Components[i]? = some c1 ∧ mapGet? d c.Name = some c1.Name) ∧
      (∀ c ∈ A.Components, ∃ v, mapGet? d c.Name = some v) ∧
      (∀ c1 ∈ A1.Components, ∃ k, mapGet? d k = some c1.Name) := by
  have hkeys : mapKeys (recordedMapping cfg rnd A.Name 0 [] A.Components) =
      (A.Components.map (fun c => c.Name)).reverse := by
    rw [recordedMapping_keys cfg rnd A.Name A.Components 0 [] hnd (by simp [mapKeys])]
    simp [mapKeys]
  have hmnd : (mapKeys (recordedMapping cfg rnd A.Name 0 [] A.Components)).Nodup := by
    rw [hkeys]; exact List.nodup_reverse.mpr hnd
  have hget : ∀ (i : Nat) (c : ApplicationComponent), A.Components[i]? = some c →
      ∃ c1, ( SetMetaDataAnnotation
          { A with Components := renamedComponents cfg rnd A.Name 0 A.Components }
          AnnotationComponentMapping
          (encodeMapping (recordedMapping cfg rnd A.Name 0 [] A.Components))).Components[i]? =
            some c1 ∧
        mapGet? (mapSetAll [] (sortEntries (recordedMapping cfg rnd A.Name 0 [] A.Components)))
          c.Name = some c1.Name := by
    intro i c hc
    rw [SetMetaDataAnnotation_Components, decoded_get _ _ hmnd]
    refine ⟨{ c with Name := generatedName cfg A.Name c.Name (rnd i) }, ?_, ?_⟩
    · simp [renamedComponents_getElem?, hc]
    · have := recordedMapping_get cfg rnd A.Name A.Components 0 [] i c hnd hc
      simpa using this
  refine ⟨_, _, encodeMapping (recordedMapping cfg rnd A.Name 0 [] A.Components),
    mapSetAll [] (sortEntries (recordedMapping cfg rnd A.Name 0 [] A.Components)),
    RandomizeComponentNames_wrapping cfg rnd h pa σ A hA hv hw, store_same _ _ _, ?_, ?_,
    decodeMapping_encodeMapping _, ?_, hget, ?_, ?_⟩
  · rw [SetMetaDataAnnotation_Components]
    exact renamedComponents_length cfg rnd A.Name A.Components 0
  · simp [GetAnnotations, annotationGet?_SetMetaDataAnnotation]
  · refine (decoded_keys _ hmnd).trans ?_
    rw [hkeys]
    exact List.reverse_perm _
  · intro c hc
    obtain ⟨i, hi⟩ := List.getElem?_of_mem hc
    obtain ⟨c1, _, h2⟩ := hget i c hi
    exact ⟨c1.Name, h2⟩
  · intro c1 hc1
    obtain ⟨i, hi⟩ := List.getElem?_of_mem hc1
    have hlen : i < A.Components.length := by
      have := (List.getElem?_eq_some_iff.mp hi).1
      rw [SetMetaDataAnnotation_Components, renamedComponents_length] at this
      exact this
    obtain ⟨c2, h1, h2⟩ := hget i A.Components[i] (List.getElem?_eq_getElem hlen)
    rw [hi] at h1
    cases h1
    exact ⟨_, h2⟩

/-- C5. When `A` lacks the marker key and the handler wraps `A`, a first call of
`RandomizeComponentNames(A)` reports a modification, and a second call on the returned
application (under any flags, random source and handler) returns
`(nil, false, nil)` and leaves the heap, hence the component names and annotations of
`A`, exactly as the first call left them. -/
theorem RandomizeComponentNames_at_most_once (cfg cfg2 : Flags) (rnd rnd2 : Nat → Nat → Nat)
    (h h2 : AppHandler) (pa : Addr) (σ : Heap) (A : Application)
    (hA : σ pa = some A)
    (hv : annotationGet? (GetAnnotations A) AnnotationComponentMapping = none)
    (hw : h.app = some pa) :
    ∃ r1 σ1, RandomizeComponentNames cfg rnd h (some pa) σ = some (r1, σ1) ∧
      r1.wasModified = true ∧ r1.err = none ∧ r1.app = some pa ∧
      RandomizeComponentNames cfg2 rnd2 h2 r1.app σ1 =
        some ({ app := none, wasModified := false, err := none }, σ1) := by
  refine ⟨_, _, RandomizeComponentNames_wrapping cfg rnd h pa σ A hA hv hw, rfl, rfl, rfl, ?_⟩
  simp [RandomizeComponentNames, store_same, GetAnnotations,
    annotationGet?_SetMetaDataAnnotation]

/-- C4, on the test application under the random suffix strategy. -/
theorem RandomizeComponentNames_mapping_complete_witness :
    (testApp.Components.map (fun c => c.Name)).Nodup ∧
    ∃ σ1 A1 s d, RandomizeComponentNames suffixFlags (fun i j => 17 * i + 201 * j) testHandler
        (some 0) testHeap =
        some ({ app := some 0, wasModified := true, err := none }, σ1) ∧
      σ1 0 = some A1 ∧
      A1.Components.length = testApp.Components.length ∧
      annotationGet? (GetAnnotations A1) AnnotationComponentMapping = some s ∧
      decodeMapping s = some d ∧
      (mapKeys d).Perm (testApp.Components.map (fun c => c.Name)) ∧
      (∀ (i : Nat) (c : ApplicationComponent), testApp.Components[i]? = some c →
        ∃ c1, A1.Components[i]? = some c1 ∧ mapGet? d c.Name = some c1.Name) ∧
      (∀ c ∈ testApp.Components, ∃ v, mapGet? d c.Name = some v) ∧
      (∀ c1 ∈ A1.Components, ∃ k, mapGet? d k = some c1.Name) :=
  ⟨by decide,
    RandomizeComponentNames_mapping_complete suffixFlags (fun i j => 17 * i + 201 * j)
      testHandler 0 testHeap testApp rfl rfl rfl (by decide)⟩

/-- C5, on the test application: a first pass with the prefix strategy, then a second
call with the random suffix strategy. -/
theorem RandomizeComponentNames_at_most_once_witness :
    testHeap 0 = some testApp ∧
    annotationGet? (GetAnnotations testApp) AnnotationComponentMapping = none ∧
    ∃ r1 σ1, RandomizeComponentNames initialFlags (fun _ _ => 0) testHandler (some 0) testHeap =
        some (r1, σ1) ∧
      r1.wasModified = true ∧ r1.err = none ∧ r1.app = some 0 ∧
      RandomizeComponentNames suffixFlags (fun i j => i + j) testHandler r1.app σ1 =
        some ({ app := none, wasModified := false, err := none }, σ1) :=
  ⟨rfl, rfl,
    RandomizeComponentNames_at_most_once initialFlags suffixFlags (fun _ _ => 0)
      (fun i j => i + j) testHandler testHandler 0 testHeap testApp rfl rfl rfl⟩

/-! ## A pass under any handler -/

theorem RandomizeComponentNames_pass (cfg : Flags) (rnd : Nat → Nat → Nat) (h : AppHandler)
    (pa : Addr) (σ : Heap) (A H : Application)
    (hA : σ pa = some A)
    (hv : annotationGet? (GetAnnotations A) AnnotationComponentMapping = none)
    (hH : load σ h.app = some H) :
    ∃ σ1 A1, RandomizeComponentNames cfg rnd h (some pa) σ =
        some ({ app := some pa, wasModified := true, err := none }, σ1) ∧
      σ1 pa = some A1 ∧
      A1.Components = renamedComponents cfg rnd H.Name 0 A.Components ∧
      A1.Name = A.Name ∧
      (∀ k, k ≠ AnnotationComponentMapping →
        annotationGet? A1.Annotations k = annotationGet? A.Annotations k) := by
  cases hp : h.app with
  | none => rw [hp] at hH; simp [load] at hH
  | some ha =>
    rw [hp] at hH
    by_cases hx : ha = pa
    · subst hx
      have hHA : H = A := by
        have : some H = some A := by rw [← hH, ← hA]; rfl
        exact Option.some.inj this
      subst hHA
      refine ⟨_, _, RandomizeComponentNames_wrapping cfg rnd h ha σ H hA hv hp,
        store_same _ _ _, ?_, ?_, ?_⟩
      · rw [SetMetaDataAnnotation_Components]
      · rw [SetMetaDataAnnotation_Name]
      · intro k hk
        rw [ annotationGet?_SetMetaDataAnnotation, if_neg hk]
    · refine ⟨_, { A with Components := renamedComponents cfg rnd H.Name 0 A.Components },
        RandomizeComponentNames_other cfg rnd h pa ha σ A H hA hv hp hx hH, ?_, rfl, rfl, ?_⟩
      · rw [store_other _ _ _ _ (Ne.symm hx), store_same]
      · intro k _; rfl

theorem generatedName_flag (cfg : Flags) (b : Bool) (hname c : String) (src : Nat → Nat) :
    generatedName { cfg with EnableComponentNameRandomization := b } hname c src =
      generatedName cfg hname c src := rfl

theorem GenerateRandomizedComponentName_flag (cfg : Flags) (b : Bool) (h : AppHandler)
    (c : String) (src : Nat → Nat) (σ : Heap) :
    GenerateRandomizedComponentName { cfg with EnableComponentNameRandomization := b } h c src σ =
      GenerateRandomizedComponentName cfg h c src σ := rfl

theorem renameLoop_flag (cfg : Flags) (b : Bool) (rnd : Nat → Nat → Nat) (h : AppHandler)
    (pa : Addr) :
    ∀ (k i : Nat) (m : GoMap) (σ : Heap),
      renameLoop { cfg with EnableComponentNameRandomization := b } rnd h pa k i m σ =
        renameLoop cfg rnd h pa k i m σ := by
  intro k
  induction k with
  | zero => intro i m σ; rfl
  | succ k ih =>
    intro i m σ
    simp only [renameLoop, GenerateRandomizedComponentName_flag, ih]

theorem RandomizeComponentNames_flag (cfg : Flags) (b : Bool) (rnd : Nat → Nat → Nat)
    (h : AppHandler) (app : Ptr) (σ : Heap) :
    RandomizeComponentNames { cfg with EnableComponentNameRandomization := b } rnd h app σ =
      RandomizeComponentNames cfg rnd h app σ := by
  simp only [RandomizeComponentNames, renameLoop_flag]

/-! ## Generated names -/

theorem prefixed_injective (n c1 c2 : String) (h : n ++ "-" ++ c1 = n ++ "-" ++ c2) :
    c1 = c2 := by
  have h2 := congrArg String.data h
  simp only [String.data_append, List.append_cancel_left_eq] at h2
  exact String.ext h2

theorem AddRandomSuffixToComponent_injective (c1 c2 : String) (src1 src2 : Nat → Nat)
    (h : AddRandomSuffixToComponent c1 src1 = AddRandomSuffixToComponent c2 src2) :
    c1 = c2 := by
  rw [AddRandomSuffixToComponent_eq, AddRandomSuffixToComponent_eq] at h
  have h2 := congrArg String.data h
  simp only [String.data_append, List.append_assoc] at h2
  have hl : ("-".data ++ hexEncode (randRead src1 randomSuffixLength)).length =
      ("-".data ++ hexEncode (randRead src2 randomSuffixLength)).length := by
    simp [hexEncode_length, randRead_length]
  exact String.ext (List.append_inj' h2 hl).1

theorem generatedName_injective (cfg : Flags) (hname c1 c2 : String) (src1 src2 : Nat → Nat)
    (h : generatedName cfg hname c1 src1 = generatedName cfg hname c2 src2) : c1 = c2 := by
  unfold generatedName at h
  cases hp : cfg.ComponentNameRandomizationAddingApplicationName
  · cases hs : cfg.ComponentNameRandomizationAddingSuffix
    · simpa [hp, hs] using h
    · simp only [hp, hs, Bool.false_eq_true, if_false, if_true] at h
      exact AddRandomSuffixToComponent_injective c1 c2 src1 src2 h
  · simp only [hp, if_true] at h
    exact prefixed_injective hname c1 c2 h

theorem generatedName_ne (cfg : Flags) (hname c : String) (src : Nat → Nat)
    (hs : cfg.ComponentNameRandomizationAddingApplicationName = true ∨
      cfg.ComponentNameRandomizationAddingSuffix = true) :
    generatedName cfg hname c src ≠ c := by
  intro h
  have hl := congrArg String.length h
  unfold generatedName at hl
  cases hp : cfg.ComponentNameRandomizationAddingApplicationName
  · have hs2 : cfg.ComponentNameRandomizationAddingSuffix = true := by
      rcases hs with h1 | h1
      · rw [hp] at h1; exact absurd h1 (by decide)
      · exact h1
    simp only [hp, hs2, Bool.false_eq_true, if_false, if_true, AddRandomSuffixToComponent_eq,
      String.length_append] at hl
    have h12 : (String.mk (hexEncode (randRead src randomSuffixLength))).length = 12 := by
      show (hexEncode (randRead src randomSuffixLength)).length = 12
      rw [hexEncode_length, randRead_length]; rfl
    have h1 : "-".length = 1 := by decide
    omega
  · simp only [hp, if_true, String.length_append] at hl
    have h1 : "-".length = 1 := by decide
    omega

theorem generatedName_fallback (cfg : Flags) (hname c : String) (src : Nat → Nat)
    (h1 : cfg.ComponentNameRandomizationAddingApplicationName = false)
    (h2 : cfg.ComponentNameRandomizationAddingSuffix = false) :
    generatedName cfg hname c src = c := by
  simp [generatedName, h1, h2]

theorem renamedComponents_fallback (cfg : Flags) (rnd : Nat → Nat → Nat) (hname : String)
    (h1 : cfg.ComponentNameRandomizationAddingApplicationName = false)
    (h2 : cfg.ComponentNameRandomizationAddingSuffix = false) :
    ∀ (cs : List ApplicationComponent) (i : Nat),
      renamedComponents cfg rnd hname i cs = cs := by
  intro cs
  induction cs with
  | nil => intro i; rfl
  | cons c cs ih =>
    intro i
    simp only [renamedComponents, ih, generatedName_fallback cfg hname _ _ h1 h2]

theorem renamedComponents_mem_name (cfg : Flags) (rnd : Nat → Nat → Nat) (hname : String) :
    ∀ (cs : List ApplicationComponent) (i : Nat) (x : String),
      x ∈ (renamedComponents cfg rnd hname i cs).map (fun c => c.Name) →
      ∃ c ∈ cs, ∃ j, x = generatedName cfg hname c.Name (rnd j) := by
  intro cs
  induction cs with
  | nil => intro i x hx; simp [renamedComponents] at hx
  | cons c cs ih =>
    intro i x hx
    simp only [renamedComponents, List.map_cons, List.mem_cons] at hx
    rcases hx with hx | hx
    · exact ⟨c, by simp, i, hx⟩
    · obtain ⟨d, hd, j, hj⟩ := ih (i + 1) x hx
      exact ⟨d, List.mem_cons_of_mem _ hd, j, hj⟩

theorem renamedComponents_nodup (cfg : Flags) (rnd : Nat → Nat → Nat) (hname : String) :
    ∀ (cs : List ApplicationComponent) (i : Nat),
      (cs.map (fun c => c.Name)).Nodup →
      ((renamedComponents cfg rnd hname i cs).map (fun c => c.Name)).Nodup := by
  intro cs
  induction cs with
  | nil => intro i _; simp [renamedComponents]
  | cons c cs ih =>
    intro i hnd
    simp only [List.map_cons, List.nodup_cons] at hnd
    simp only [renamedComponents, List.map_cons, List.nodup_cons]
    refine ⟨?_, ih (i + 1) hnd.2⟩
    intro hmem
    obtain ⟨d, hd, j, hj⟩ := renamedComponents_mem_name cfg rnd hname cs (i + 1) _ hmem
    have hcd : c.Name = d.Name := generatedName_injective cfg hname _ _ _ _ hj
    exact hnd.1 (by rw [hcd]; exact List.mem_map_of_mem _ hd)

/-! ## Keys of a map stay distinct -/

theorem mapKeys_mapErase_sub (m : GoMap) (k x : String) (hx : x ∈ mapKeys (mapErase m k)) :
    x ∈ mapKeys m ∧ x ≠ k := by
  induction m with
  | nil => simp [mapErase, mapKeys] at hx
  | cons e es ih =>
    obtain ⟨a, b⟩ := e
    by_cases ha : a = k
    · simp only [mapErase, ha, if_true] at hx
      have := ih hx
      exact ⟨by simp only [mapKeys, List.map_cons, List.mem_cons]; exact Or.inr this.1, this.2⟩
    · simp only [mapErase, ha, if_false, mapKeys, List.map_cons, List.mem_cons] at hx
      rcases hx with hx | hx
      · subst hx
        exact ⟨by simp [mapKeys], ha⟩
      · have := ih hx
        exact ⟨by simp only [mapKeys, List.map_cons, List.mem_cons]; exact Or.inr this.1,
          this.2⟩

theorem mapKeys_mapErase_nodup (m : GoMap) (k : String) (hnd : (mapKeys m).Nodup) :
    (mapKeys (mapErase m k)).Nodup := by
  induction m with
  | nil => simp [mapErase, mapKeys]
  | cons e es ih =>
    obtain ⟨a, b⟩ := e
    simp only [mapKeys, List.map_cons, List.nodup_cons] at hnd
    by_cases ha : a = k
    · simp only [mapErase, ha, if_true]
      exact ih hnd.2
    · simp only [mapErase, ha, if_false, mapKeys, List.map_cons, List.nodup_cons]
      exact ⟨fun hmem => hnd.1 (mapKeys_mapErase_sub es k a hmem).1, ih hnd.2⟩

theorem mapKeys_mapSet_nodup (m : GoMap) (k v : String) (hnd : (mapKeys m).Nodup) :
    (mapKeys (mapSet m k v)).Nodup := by
  simp only [mapSet, mapKeys, List.map_cons, List.nodup_cons]
  exact ⟨fun hmem => (mapKeys_mapErase_sub m k k hmem).2 rfl, mapKeys_mapErase_nodup m k hnd⟩

theorem recordedMapping_keys_nodup (cfg : Flags) (rnd : Nat → Nat → Nat) (hname : String) :
    ∀ (cs : List ApplicationComponent) (i : Nat) (m : GoMap), (mapKeys m).Nodup →
      (mapKeys (recordedMapping cfg rnd hname i m cs)).Nodup := by
  intro cs
  induction cs with
  | nil => intro i m hm; exact hm
  | cons c cs ih =>
    intro i m hm
    exact ih (i + 1) _ (mapKeys_mapSet_nodup m _ _ hm)

theorem recordedMapping_fallback_get (cfg : Flags) (rnd : Nat → Nat → Nat) (hname : String)
    (h1 : cfg.ComponentNameRandomizationAddingApplicationName = false)
    (h2 : cfg.ComponentNameRandomizationAddingSuffix = false) :
    ∀ (cs : List ApplicationComponent) (i : Nat) (m : GoMap) (k : String),
      mapGet? (recordedMapping cfg rnd hname i m cs) k =
        if k ∈ cs.map (fun c => c.Name) then some k else mapGet? m k := by
  intro cs
  induction cs with
  | nil => intro i m k; simp [recordedMapping]
  | cons c cs ih =>
    intro i m k
    simp only [recordedMapping, ih, generatedName_fallback cfg hname _ _ h1 h2,
      mapGet?_mapSet, List.map_cons, List.mem_cons]
    by_cases hk : k ∈ cs.map (fun c => c.Name)
    · simp [hk]
    · by_cases hc : k = c.Name
      · simp [hc]
      · simp [hk, hc]

/-! ## The error branch, the recorder and the frame of a pass -/

/-- C11, at a handler without application (`&AppHandler{}`) and the test application:
the log line reads `h.app.Name`, the call panics and returns no triple. -/
theorem RandomizeComponentNames_nil_handler_panics :
    annotationGet? (GetAnnotations testApp) AnnotationComponentMapping = none ∧
    RandomizeComponentNames initialFlags (fun _ _ => 0) nilHandler (some 0) testHeap = none ∧
    ¬ ∃ σ1, RandomizeComponentNames initialFlags (fun _ _ => 0) nilHandler (some 0) testHeap =
      some ({ app := some 0, wasModified := true, err := none }, σ1) := by
  have hnone : RandomizeComponentNames initialFlags (fun _ _ => 0) nilHandler (some 0)
      testHeap = none := rfl
  refine ⟨rfl, hnone, ?_⟩
  rintro ⟨σ1, h1⟩
  rw [hnone] at h1
  exact Option.noConfusion h1

/-- C11, amended. For every handler whose application is not nil (it need not be `A`),
every setting of the flags, every random source and every application `A` without the
marker key, `RandomizeComponentNames(A)` returns `(A, true, nil)`; `json.Marshal` of a
string-to-string mapping never fails, and `SetComponentMappingAnnotation` returns a nil
error on every mapping. -/
theorem RandomizeComponentNames_no_error (cfg : Flags) (rnd : Nat → Nat → Nat) (h : AppHandler)
    (pa : Addr) (σ : Heap) (A H : Application)
    (hA : σ pa = some A)
    (hv : annotationGet? (GetAnnotations A) AnnotationComponentMapping = none)
    (hH : load σ h.app = some H) :
    (∃ σ1, RandomizeComponentNames cfg rnd h (some pa) σ =
      some ({ app := some pa, wasModified := true, err := none }, σ1)) ∧
    (∀ m : GoMap, ∃ s, jsonMarshal m = Except.ok s) ∧
    (∀ (m : GoMap) (σ2 : Heap) (A2 H2 : Application), σ2 pa = some A2 →
      load σ2 h.app = some H2 →
      ∃ σ3, SetComponentMappingAnnotation h (some pa) m σ2 = some (none, σ3)) := by
  refine ⟨?_, fun m => ⟨encodeMapping m, rfl⟩, ?_⟩
  · obtain ⟨σ1, _, hr, _⟩ := RandomizeComponentNames_pass cfg rnd h pa σ A H hA hv hH
    exact ⟨σ1, hr⟩
  · intro m σ2 A2 H2 hA2 hH2
    cases hp : h.app with
    | none => rw [hp] at hH2; simp [load] at hH2
    | some ha =>
      rw [hp] at hH2
      have hH3 : σ2 ha = some H2 := hH2
      exact ⟨store σ2 ha ( SetMetaDataAnnotation H2 AnnotationComponentMapping
        (encodeMapping m)), by simp [ SetComponentMappingAnnotation, load, hA2, jsonMarshal, hp,
          hH3]⟩

/-- C11, amended, on an application with no annotations and no components (`other-app`)
wrapped by its handler. -/
theorem RandomizeComponentNames_no_error_witness :
    twoHeap 1 = some otherApp ∧ otherApp.Annotations = none ∧ otherApp.Components = [] ∧
    (∃ σ1, RandomizeComponentNames suffixFlags (fun i j => i + j) otherHandler (some 1) twoHeap =
      some ({ app := some 1, wasModified := true, err := none }, σ1)) ∧
    (∀ m : GoMap, ∃ s, jsonMarshal m = Except.ok s) ∧
    (∀ (m : GoMap) (σ2 : Heap) (A2 H2 : Application), σ2 1 = some A2 →
      load σ2 otherHandler.app = some H2 →
      ∃ σ3, SetComponentMappingAnnotation otherHandler (some 1) m σ2 = some (none, σ3)) :=
  ⟨rfl, rfl, rfl,
    RandomizeComponentNames_no_error suffixFlags (fun i j => i + j) otherHandler 1 twoHeap
      otherApp otherApp rfl rfl rfl⟩

/-- C12. For every handler wrapping `A` and every mapping `m`,
`SetComponentMappingAnnotation(A, m)` returns a nil error; afterwards the annotations of
`A` are a map (created when there was none) equal to the former one with the key
`app.oam.dev/component-mapping` set to the encoding of `m`: that key holds the encoding
whatever it held before, every other key holds what it held before, and nothing else
changes. -/
theorem SetComponentMappingAnnotation_spec (h : AppHandler) (pa : Addr) (σ : Heap)
    (A : Application) (m : GoMap)
    (hw : h.app = some pa) (hA : σ pa = some A) :
    ∃ σ1 A1, SetComponentMappingAnnotation h (some pa) m σ = some (none, σ1) ∧
      σ1 pa = some A1 ∧
      jsonMarshal m = Except.ok (encodeMapping m) ∧
      A1.Annotations =
        some (mapSet (A.Annotations.getD []) AnnotationComponentMapping (encodeMapping m)) ∧
      annotationGet? A1.Annotations AnnotationComponentMapping = some (encodeMapping m) ∧
      (∀ k, k ≠ AnnotationComponentMapping →
        annotationGet? A1.Annotations k = annotationGet? A.Annotations k) ∧
      A1.Name = A.Name ∧ A1.Components = A.Components ∧
      (∀ q, q ≠ pa → σ1 q = σ q) := by
  refine ⟨store σ pa ( SetMetaDataAnnotation A AnnotationComponentMapping (encodeMapping m)),
    SetMetaDataAnnotation A AnnotationComponentMapping (encodeMapping m), ?_, store_same _ _ _,
    rfl, ?_, ?_, ?_, SetMetaDataAnnotation_Name _ _ _, SetMetaDataAnnotation_Components _ _ _,
    ?_⟩
  · simp [ SetComponentMappingAnnotation, load, hA, jsonMarshal, hw]
  · unfold SetMetaDataAnnotation
    cases hann : A.Annotations <;> simp
  · rw [ annotationGet?_SetMetaDataAnnotation, if_pos rfl]
  · intro k hk
    rw [ annotationGet?_SetMetaDataAnnotation, if_neg hk]
  · intro q hq
    exact store_other _ _ _ _ hq

/-- C12, on the test application carrying the annotation `team` and an old marker
value, and the mapping `component1 -> test-app-component1`. -/
theorem SetComponentMappingAnnotation_spec_witness :
    annotationGet? annotatedApp.Annotations AnnotationComponentMapping = some "old" ∧
    ∃ σ1 A1, SetComponentMappingAnnotation testHandler (some 0)
        [("component1", "test-app-component1")] annotatedHeap = some (none, σ1) ∧
      σ1 0 = some A1 ∧
      jsonMarshal [("component1", "test-app-component1")] =
        Except.ok (encodeMapping [("component1", "test-app-component1")]) ∧
      A1.Annotations =
        some (mapSet (annotatedApp.Annotations.getD []) AnnotationComponentMapping
          (encodeMapping [("component1", "test-app-component1")])) ∧
      annotationGet? A1.Annotations AnnotationComponentMapping =
        some (encodeMapping [("component1", "test-app-component1")]) ∧
      (∀ k, k ≠ AnnotationComponentMapping →
        annotationGet? A1.Annotations k = annotationGet? annotatedApp.Annotations k) ∧
      A1.Name = annotatedApp.Name ∧ A1.Components = annotatedApp.Components ∧
      (∀ q, q ≠ 0 → σ1 q = annotatedHeap q) :=
  ⟨by decide,
    SetComponentMappingAnnotation_spec testHandler 0 annotatedHeap annotatedApp
      [("component1", "test-app-component1")] rfl rfl⟩

/-- C13. When `A` lacks the marker key and the handler wraps `A`, a pass keeps the
number and the order of the components, leaves every field of every component other
than its name as it was, keeps the name of the application and every annotation other
than `app.oam.dev/component-mapping`, and touches no other object. -/
theorem RandomizeComponentNames_frame (cfg : Flags) (rnd : Nat → Nat → Nat) (h : AppHandler)
    (pa : Addr) (σ : Heap) (A : Application)
    (hA : σ pa = some A)
    (hv : annotationGet? (GetAnnotations A) AnnotationComponentMapping = none)
    (hw : h.app = some pa) :
    ∃ σ1 A1, RandomizeComponentNames cfg rnd h (some pa) σ =
        some ({ app := some pa, wasModified := true, err := none }, σ1) ∧
      σ1 pa = some A1 ∧
      A1.Components.length = A.Components.length ∧
      (∀ (i : Nat) (c : ApplicationComponent), A.Components[i]? = some c →
        ∃ c1, A1.Components[i]? = some c1 ∧ c1.Type_ = c.Type_ ∧
          c1 = { c with Name := c1.Name }) ∧
      A1.Name = A.Name ∧
      (∀ k, k ≠ AnnotationComponentMapping →
        annotationGet? A1.Annotations k = annotationGet? A.Annotations k) ∧
      (∀ q, q ≠ pa → σ1 q = σ q) := by
  refine ⟨_, _, RandomizeComponentNames_wrapping cfg rnd h pa σ A hA hv hw, store_same _ _ _,
    ?_, ?_, ?_, ?_, ?_⟩
  · rw [SetMetaDataAnnotation_Components]
    exact renamedComponents_length cfg rnd A.Name A.Components 0
  · intro i c hc
    rw [SetMetaDataAnnotation_Components]
    refine ⟨{ c with Name := generatedName cfg A.Name c.Name (rnd i) }, ?_, rfl, rfl⟩
    simp [renamedComponents_getElem?, hc]
  · rw [SetMetaDataAnnotation_Name]
  · intro k hk
    rw [ annotationGet?_SetMetaDataAnnotation, if_neg hk]
  · intro q hq
    exact store_other _ _ _ _ hq

/-- C13, on the test application under the random suffix strategy. -/
theorem RandomizeComponentNames_frame_witness :
    ∃ σ1 A1, RandomizeComponentNames suffixFlags (fun i j => 3 * i + j) testHandler (some 0)
        testHeap =
        some ({ app := some 0, wasModified := true, err := none }, σ1) ∧
      σ1 0 = some A1 ∧
      A1.Components.length = testApp.Components.length ∧
      (∀ (i : Nat) (c : ApplicationComponent), testApp.Components[i]? = some c →
        ∃ c1, A1.Components[i]? = some c1 ∧ c1.Type_ = c.Type_ ∧
          c1 = { c with Name := c1.Name }) ∧
      A1.Name = testApp.Name ∧
      (∀ k, k ≠ AnnotationComponentMapping →
        annotationGet? A1.Annotations k = annotationGet? testApp.Annotations k) ∧
      (∀ q, q ≠ 0 → σ1 q = testHeap q) :=
  RandomizeComponentNames_frame suffixFlags (fun i j => 3 * i + j) testHandler 0 testHeap
    testApp rfl rfl rfl

/-! ## Uniqueness of names, the main switch and the fallback pass -/

/-- C14. When `A` lacks the marker key and its component names are pairwise distinct,
then under every setting of the flags, every random source and every handler the call
either panics on the nil application of the handler before touching any component, or
returns with the component names of `A` pairwise distinct.  The generators do not
collide: `AddAppNameToComponent` is injective for a handler with an application, and
`AddRandomSuffixToComponent` gives different names to different names under any two
draws. -/
theorem RandomizeComponentNames_names_distinct (cfg : Flags) (rnd : Nat → Nat → Nat)
    (h : AppHandler) (pa : Addr) (σ : Heap) (A : Application)
    (hA : σ pa = some A)
    (hv : annotationGet? (GetAnnotations A) AnnotationComponentMapping = none)
    (hnd : (A.Components.map (fun c => c.Name)).Nodup) :
    ((load σ h.app = none ∧ RandomizeComponentNames cfg rnd h (some pa) σ = none) ∨
      (∃ σ1 A1, RandomizeComponentNames cfg rnd h (some pa) σ =
          some ({ app := some pa, wasModified := true, err := none }, σ1) ∧
        σ1 pa = some A1 ∧ (A1.Components.map (fun c => c.Name)).Nodup)) ∧
    (∀ (c1 c2 : String) (r : String), AddAppNameToComponent h c1 σ = some r →
      AddAppNameToComponent h c2 σ = some r → c1 = c2) ∧
    (∀ (c1 c2 : String) (src1 src2 : Nat → Nat), c1 ≠ c2 →
      AddRandomSuffixToComponent c1 src1 ≠ AddRandomSuffixToComponent c2 src2) := by
  refine ⟨?_, ?_, ?_⟩
  · cases hl : load σ h.app with
    | none =>
      exact Or.inl ⟨rfl, by simp [RandomizeComponentNames, hA, hv, hl]⟩
    | some H =>
      obtain ⟨σ1, A1, hr, h1, hc, _, _⟩ :=
        RandomizeComponentNames_pass cfg rnd h pa σ A H hA hv hl
      refine Or.inr ⟨σ1, A1, hr, h1, ?_⟩
      rw [hc]
      exact renamedComponents_nodup cfg rnd H.Name A.Components 0 hnd
  · intro c1 c2 r h1 h2
    unfold AddAppNameToComponent at h1 h2
    cases hl : load σ h.app with
    | none => simp [hl] at h1
    | some H =>
      simp only [hl, Option.some.injEq] at h1 h2
      exact prefixed_injective H.Name c1 c2 (h1.trans h2.symm)
  · intro c1 c2 src1 src2 hne heq
    exact hne (AddRandomSuffixToComponent_injective c1 c2 src1 src2 heq)

/-- C14, on the test application under the random suffix strategy. -/
theorem RandomizeComponentNames_names_distinct_witness :
    (testApp.Components.map (fun c => c.Name)).Nodup ∧
    ((load testHeap testHandler.app = none ∧
        RandomizeComponentNames suffixFlags (fun _ _ => 0) testHandler (some 0) testHeap = none) ∨
      (∃ σ1 A1, RandomizeComponentNames suffixFlags (fun _ _ => 0) testHandler (some 0) testHeap =
          some ({ app := some 0, wasModified := true, err := none }, σ1) ∧
        σ1 0 = some A1 ∧ (A1.Components.map (fun c => c.Name)).Nodup)) ∧
    (∀ (c1 c2 : String) (r : String), AddAppNameToComponent testHandler c1 testHeap = some r →
      AddAppNameToComponent testHandler c2 testHeap = some r → c1 = c2) ∧
    (∀ (c1 c2 : String) (src1 src2 : Nat → Nat), c1 ≠ c2 →
      AddRandomSuffixToComponent c1 src1 ≠ AddRandomSuffixToComponent c2 src2) :=
  ⟨by decide,
    RandomizeComponentNames_names_distinct suffixFlags (fun _ _ => 0) testHandler 0 testHeap
      testApp rfl rfl (by decide)⟩

/-- C15, evaluated at the test application with `EnableComponentNameRandomization = false`
and the application-name flag enabled: the call renames the components and writes the
marker, with the very result it has when the flag is `true`. -/
theorem RandomizeComponentNames_main_switch_off_renames :
    disabledFlags.EnableComponentNameRandomization = false ∧
    annotationGet? (GetAnnotations testApp) AnnotationComponentMapping = none ∧
    RandomizeComponentNames disabledFlags (fun _ _ => 0) testHandler (some 0) testHeap =
      RandomizeComponentNames initialFlags (fun _ _ => 0) testHandler (some 0) testHeap ∧
    ∃ σ1 A1, RandomizeComponentNames disabledFlags (fun _ _ => 0) testHandler (some 0) testHeap =
        some ({ app := some 0, wasModified := true, err := none }, σ1) ∧
      σ1 0 = some A1 ∧
      A1.Components.map (fun c => c.Name) = ["test-app-component1", "test-app-component2"] ∧
      A1.Components.map (fun c => c.Name) ≠ testApp.Components.map (fun c => c.Name) ∧
      (∃ v, annotationGet? (GetAnnotations A1) AnnotationComponentMapping = some v) :=
  ⟨rfl, rfl,
    RandomizeComponentNames_flag initialFlags false (fun _ _ => 0) testHandler (some 0) testHeap,
    _, _,
    RandomizeComponentNames_wrapping disabledFlags (fun _ _ => 0) testHandler 0 testHeap testApp
      rfl rfl rfl,
    store_same _ _ _, rfl, by decide, ⟨_, rfl⟩⟩

/-- C16. When `A` lacks the marker key, the handler wraps `A` and both strategy flags
are disabled, `RandomizeComponentNames(A)` returns `wasModified = true`, leaves every
component as it was, and writes the marker key; the value decodes to a mapping that
sends every original component name to itself (and has no other key).  A later call,
under any flags, random source and handler, returns `(nil, false, nil)` and changes
nothing. -/
theorem RandomizeComponentNames_fallback_pass (cfg : Flags) (rnd : Nat → Nat → Nat)
    (h : AppHandler) (pa : Addr) (σ : Heap) (A : Application)
    (hA : σ pa = some A)
    (hv : annotationGet? (GetAnnotations A) AnnotationComponentMapping = none)
    (hw : h.app = some pa)
    (h1 : cfg.ComponentNameRandomizationAddingApplicationName = false)
    (h2 : cfg.ComponentNameRandomizationAddingSuffix = false) :
    ∃ σ1 A1 s d, RandomizeComponentNames cfg rnd h (some pa) σ =
        some ({ app := some pa, wasModified := true, err := none }, σ1) ∧
      σ1 pa = some A1 ∧
      A1.Components = A.Components ∧
      annotationGet? (GetAnnotations A1) AnnotationComponentMapping = some s ∧
      decodeMapping s = some d ∧
      (∀ c ∈ A.Components, mapGet? d c.Name = some c.Name) ∧
      (∀ k v, mapGet? d k = some v → v = k ∧ k ∈ A.Components.map (fun c => c.Name)) ∧
      (∀ (cfg2 : Flags) (rnd2 : Nat → Nat → Nat) (h3 : AppHandler),
        RandomizeComponentNames cfg2 rnd2 h3 (some pa) σ1 =
          some ({ app := none, wasModified := false, err := none }, σ1)) := by
  have hmnd : (mapKeys (recordedMapping cfg rnd A.Name 0 [] A.Components)).Nodup :=
    recordedMapping_keys_nodup cfg rnd A.Name A.Components 0 [] (by simp [mapKeys])
  have hget : ∀ k, mapGet? (mapSetAll [] (sortEntries
      (recordedMapping cfg rnd A.Name 0 [] A.Components))) k =
      if k ∈ A.Components.map (fun c => c.Name) then some k else none := by
    intro k
    rw [decoded_get _ _ hmnd, recordedMapping_fallback_get cfg rnd A.Name h1 h2]
    rfl
  refine ⟨_, _, encodeMapping (recordedMapping cfg rnd A.Name 0 [] A.Components),
    mapSetAll [] (sortEntries (recordedMapping cfg rnd A.Name 0 [] A.Components)),
    RandomizeComponentNames_wrapping cfg rnd h pa σ A hA hv hw, store_same _ _ _, ?_, ?_,
    decodeMapping_encodeMapping _, ?_, ?_, ?_⟩
  · rw [SetMetaDataAnnotation_Components]
    exact renamedComponents_fallback cfg rnd A.Name h1 h2 A.Components 0
  · simp [GetAnnotations, annotationGet?_SetMetaDataAnnotation]
  · intro c hc
    rw [hget, if_pos (List.mem_map_of_mem _ hc)]
  · intro k v hkv
    rw [hget] at hkv
    by_cases hk : k ∈ A.Components.map (fun c => c.Name)
    · rw [if_pos hk] at hkv
      exact ⟨(Option.some.inj hkv).symm, hk⟩
    · rw [if_neg hk] at hkv
      exact Option.noConfusion hkv
  · intro cfg2 rnd2 h3
    simp [RandomizeComponentNames, store_same, GetAnnotations,
      annotationGet?_SetMetaDataAnnotation]

/-- C16, on the test application: a fallback pass, then a call with the default flags. -/
theorem RandomizeComponentNames_fallback_pass_witness :
    ∃ σ1 A1 s d, RandomizeComponentNames fallbackFlags (fun _ _ => 0) testHandler (some 0)
        testHeap =
        some ({ app := some 0, wasModified := true, err := none }, σ1) ∧
      σ1 0 = some A1 ∧
      A1.Components = testApp.Components ∧
      annotationGet? (GetAnnotations A1) AnnotationComponentMapping = some s ∧
      decodeMapping s = some d ∧
      (∀ c ∈ testApp.Components, mapGet? d c.Name = some c.Name) ∧
      (∀ k v, mapGet? d k = some v →
        v = k ∧ k ∈ testApp.Components.map (fun c => c.Name)) ∧
      (∀ (cfg2 : Flags) (rnd2 : Nat → Nat → Nat) (h3 : AppHandler),
        RandomizeComponentNames cfg2 rnd2 h3 (some 0) σ1 =
          some ({ app := none, wasModified := false, err := none }, σ1)) :=
  RandomizeComponentNames_fallback_pass fallbackFlags (fun _ _ => 0) testHandler 0 testHeap
    testApp rfl rfl rfl rfl rfl

end KubeVela
